import Mathlib

/-!
# RESP codec and dispatch server: a shallow embedding

The Go package `resp` (files `proto.go` and `server.go`) is embedded as pure
Lean functions over explicit state.

Modelling conventions.

* A byte is a natural number, a Go `string` or `[]byte` is a list of
  bytes (`Bytes`).  Go strings are byte sequences, so this is exact.
* The platform is 64-bit (`intSize = 64`, the Go type `int` is `int64`), and the
  allocator limit is the one of the gc runtime on such platforms
  (`maxAlloc = 2 ^ 48`).
* The read side of a connection is the sequence of bytes the peer sends before
  it closes; reading past the end gives `io.EOF`.  The `bufio.Reader` has the
  default buffer of 4096 bytes, which is visible through `ReadLine`.
* The write side is reliable: a write to the transport does not fail.
* A call either returns, panics, or blocks for ever on a mutex that is already
  held (`sync.Mutex` is not reentrant).
-/

namespace Resp

/-- Go `string` / `[]byte`: a list of bytes, each a natural number. -/
abbrev Bytes := List Nat

/-- ASCII string literal as bytes. -/
def lit (s : String) : Bytes := s.toList.map Char.toNat

/-- Carriage return. -/
def CR : Nat := 13

/-- Line feed. -/
def LF : Nat := 10

/-- Size in bits of the Go type int. -/
def intSize : Nat := 64

/-- Allocation limit of the runtime: makeslice panics above it. -/
def maxAlloc : Nat := 2 ^ 48

/-- Default size of a bufio buffer. -/
def defaultBufSize : Nat := 4096

/-! ## Errors and values -/

/-- The two causes carried by a `*strconv.NumError`. -/
inductive NumErrKind
  | errSyn
  | errRange
  deriving DecidableEq

/-- The Go `error` values that the package produces or passes on. -/
inductive GoError
  | EOF
  | ErrUnexpectedEOF
  | ErrBufferFull
  | errorString (msg : Bytes)
  | numError (num : Bytes) (kind : NumErrKind)
  deriving DecidableEq

/-- The dynamically typed values (`interface{}`) that `readReply` returns. -/
inductive Value
  | null
  | str (s : Bytes)
  | int64 (n : Int)
  | error (msg : Bytes)
  | array (xs : List Value)

/-! ## strconv -/

/-- Decimal digits of `n`, most significant first, prepended to `acc`. -/
def formatBitsAux : Nat → Nat → Bytes → Bytes
  | 0, _, acc => acc
  | fuel + 1, n, acc =>
    if n < 10 then (48 + n) :: acc
    else formatBitsAux fuel (n / 10) ((48 + n % 10) :: acc)

/-- The function `strconv.formatBits` in base 10 on a magnitude: the decimal digits,
most significant first, with no leading zero (Go produces them two at a time from a
table; the text is the same). -/
def formatBits (n : Nat) : Bytes := formatBitsAux (n + 1) n []

/-- The function `strconv.FormatInt(i, 10)`; `strconv.Itoa` is the same on `int`. -/
def FormatInt (i : Int) : Bytes :=
  if i < 0 then 45 :: formatBits (-i).toNat else formatBits i.toNat

/-- The function `strconv.Itoa`. -/
def Itoa (i : Int) : Bytes := FormatInt i

/-- The helper `lower` of strconv: `c | ('x' - 'X')`. -/
def lower (c : Nat) : Nat := c ||| 32

/-- The digit loop of `strconv.ParseUint(s, 10, 64)`: `n` is the accumulator. -/
def parseUintLoop (s0 : Bytes) : Bytes → Nat → Nat × Option GoError
  | [], n => (n, none)
  | c :: cs, n =>
    let d : Option Nat :=
      if 48 ≤ c ∧ c ≤ 57 then some (c - 48)
      else if 97 ≤ lower c ∧ lower c ≤ 122 then some (lower c - 97 + 10)
      else none
    match d with
    | none => (0, some (GoError.numError s0 NumErrKind.errSyn))
    | some d =>
      if d ≥ 10 then (0, some (GoError.numError s0 NumErrKind.errSyn))
      else if n ≥ (2 ^ 64 - 1) / 10 + 1 then
        (2 ^ intSize - 1, some (GoError.numError s0 NumErrKind.errRange))
      else
        let n10 := (n * 10) % 2 ^ 64
        let n1 := (n10 + d) % 2 ^ 64
        if n1 < n10 ∨ n1 > 2 ^ intSize - 1 then
          (2 ^ intSize - 1, some (GoError.numError s0 NumErrKind.errRange))
        else parseUintLoop s0 cs n1

/-- The function `strconv.ParseUint(s, 10, 0)`. -/
def ParseUint (s : Bytes) : Nat × Option GoError :=
  if s = [] then (0, some (GoError.numError s NumErrKind.errSyn))
  else parseUintLoop s s 0

/-- The function `strconv.ParseInt(s, 10, 0)`. -/
def ParseInt (s0 : Bytes) : Int × Option GoError :=
  match s0 with
  | [] => (0, some (GoError.numError s0 NumErrKind.errSyn))
  | c :: cs =>
    let neg : Bool := c = 45
    let s : Bytes := if c = 43 ∨ c = 45 then cs else s0
    match ParseUint s with
    | (_, some (GoError.numError _ NumErrKind.errSyn)) =>
      (0, some (GoError.numError s0 NumErrKind.errSyn))
    | (un, _) =>
      let cutoff : Nat := 2 ^ (intSize - 1)
      if neg = false ∧ un ≥ cutoff then
        ((cutoff : Int) - 1, some (GoError.numError s0 NumErrKind.errRange))
      else if neg = true ∧ un > cutoff then
        (-(cutoff : Int), some (GoError.numError s0 NumErrKind.errRange))
      else if neg then (-(un : Int), none) else ((un : Int), none)

/-! ## bufio.Reader and io.ReadFull -/

/-- The function `bytes.IndexByte`. -/
def indexByte (delim : Nat) : Bytes → Option Nat
  | [] => none
  | b :: bs => if b = delim then some 0 else (indexByte delim bs).map (· + 1)

/-- The method `(*bufio.Reader).ReadSlice` on the unread bytes `s` of the stream:
the slice, the error and the bytes left unread.  The delimiter is found when it
lies in the buffer, that is among the first `defaultBufSize` unread bytes. -/
def ReadSlice (delim : Nat) (s : Bytes) : Bytes × Option GoError × Bytes :=
  match indexByte delim (s.take defaultBufSize) with
  | some i => (s.take (i + 1), none, s.drop (i + 1))
  | none =>
    if s.length < defaultBufSize then (s, some GoError.EOF, [])
    else (s.take defaultBufSize, some GoError.ErrBufferFull, s.drop defaultBufSize)

/-- Result of `(*bufio.Reader).ReadLine`, with the bytes left unread. -/
structure LineResult where
  line : Bytes
  isPrefix : Bool
  err : Option GoError
  rest : Bytes
  deriving DecidableEq

/-- End of `ReadLine`: drop the terminator, LF or CR LF, of a line ending in LF. -/
def dropEOL (line : Bytes) : Bytes :=
  if line.getLast? = some LF then
    if line.length > 1 ∧ line.dropLast.getLast? = some CR then line.dropLast.dropLast
    else line.dropLast
  else line

/-- The method `(*bufio.Reader).ReadLine` on the unread bytes `s` of the stream. -/
def ReadLine (s : Bytes) : LineResult :=
  match ReadSlice LF s with
  | (line, some GoError.ErrBufferFull, rest) =>
    if line.length > 0 ∧ line.getLast? = some CR then
      { line := line.dropLast, isPrefix := true, err := none, rest := CR :: rest }
    else
      { line := line, isPrefix := true, err := none, rest := rest }
  | (line, err, rest) =>
    if line.length = 0 then
      { line := [], isPrefix := false, err := err, rest := rest }
    else
      { line := dropEOL line, isPrefix := false, err := none, rest := rest }

/-- The function `io.ReadFull` on a buffer of `n` bytes. -/
def ReadFull (n : Nat) (s : Bytes) : Bytes × Option GoError × Bytes :=
  if n ≤ s.length then (s.take n, none, s.drop n)
  else if s = [] then ([], some GoError.EOF, [])
  else (s, some GoError.ErrUnexpectedEOF, [])

/-! ## The decoder -/

/-- The run-time panics that the package can raise. -/
inductive PanicKind
  | indexOutOfRange
  | makesliceLen
  | makesliceCap
  deriving DecidableEq

/-- What a call of `readReply` does: the pair it returns, or a panic. -/
inductive Reply
  | ret (v : Value) (err : Option GoError)
  | panic (k : PanicKind)

/-- The check of `runtime.makeslice` for `n` elements of `size` bytes. -/
def makesliceOK (size : Nat) (n : Int) : Bool :=
  decide (0 ≤ n ∧ n.toNat * size ≤ maxAlloc)

/-- The loop `for i = 0; i < n; i++` of the array case of `readReply`: `rd` is the
recursive call, `rts` the elements read so far. -/
def readArray (rd : Bytes → Option (Reply × Bytes)) :
    Nat → Bytes → List Value → Option (Reply × Bytes)
  | 0, s, rts => some (Reply.ret (Value.array rts) none, s)
  | n + 1, s, rts =>
    match rd s with
    | none => none
    | some (Reply.ret rt none, s1) => readArray rd n s1 (rts ++ [rt])
    | some (Reply.ret _ (some err), s1) => some (Reply.ret Value.null (some err), s1)
    | some (Reply.panic k, s1) => some (Reply.panic k, s1)

/-- The method `(*Conn).readReply` on the unread bytes `s`, with a bound `fuel` on
the depth of the recursion; `none` when the bound is reached. -/
def readReplyAux : Nat → Bytes → Option (Reply × Bytes)
  | 0, _ => none
  | fuel + 1, s =>
    let r := ReadLine s
    match r.err with
    | some err => some (Reply.ret Value.null (some err), r.rest)
    | none =>
      if r.isPrefix then
        some (Reply.ret Value.null (some (GoError.errorString (lit "bad protocol"))), r.rest)
      else
        match r.line with
        | [] => some (Reply.panic PanicKind.indexOutOfRange, r.rest)
        | tag :: body =>
          if tag = 43 then some (Reply.ret (Value.str body) none, r.rest)
          else if tag = 45 then some (Reply.ret (Value.error body) none, r.rest)
          else if tag = 58 then
            some (Reply.ret (Value.int64 (ParseInt body).1) (ParseInt body).2, r.rest)
          else if tag = 36 then
            match ParseInt body with
            | (_, some _) =>
              some (Reply.ret Value.null (some (GoError.errorString (lit "bad protocal"))), r.rest)
            | (n, none) =>
              if n = -1 then some (Reply.ret Value.null none, r.rest)
              else if makesliceOK 1 n = false then
                some (Reply.panic PanicKind.makesliceLen, r.rest)
              else
                match ReadFull n.toNat r.rest with
                | (_, some err, rest) => some (Reply.ret Value.null (some err), rest)
                | (buf, none, rest) =>
                  let r2 := ReadLine rest
                  match r2.err with
                  | some err => some (Reply.ret Value.null (some err), r2.rest)
                  | none =>
                    if r2.line.length > 0 then
                      some (Reply.ret Value.null
                        (some (GoError.errorString (lit "bad protocol"))), r2.rest)
                    else some (Reply.ret (Value.str buf) none, r2.rest)
          else if tag = 42 then
            match ParseInt body with
            | (_, some _) =>
              some (Reply.ret Value.null (some (GoError.errorString (lit "bad protocol"))), r.rest)
            | (n, none) =>
              if n < 0 then some (Reply.ret Value.null none, r.rest)
              else if makesliceOK 16 n = false then
                some (Reply.panic PanicKind.makesliceCap, r.rest)
              else readArray (readReplyAux fuel) n.toNat r.rest []
          else
            some (Reply.ret Value.null (some (GoError.errorString (lit "bad protocol"))), r.rest)

/-- The method `(*Conn).readReply` on the unread bytes `s`: what it returns and the
bytes left unread.  Each call reads at least one byte or fails, so the depth of the
recursion is at most the length of `s` (theorem `readReplyAux_fuel`). -/
def readReply (s : Bytes) : Reply × Bytes :=
  match readReplyAux (s.length + 1) s with
  | some r => r
  | none => (Reply.ret Value.null (some GoError.EOF), [])

/-! ## Connections -/

/-- State of a `*Conn`: `input` is what `c.br` has still to deliver, `bw` the bytes
held by `c.bw`, `output` the bytes sent on `c.conn`, `mu` whether `c.mu` is held,
`closed` whether `c.conn` has been closed. -/
structure Conn where
  input : Bytes
  bw : Bytes
  output : Bytes
  mu : Bool
  closed : Bool
  deriving DecidableEq

/-- What a call on a state of type `σ` does: it returns `a`, it panics, or it blocks
for ever on a mutex; each with the state reached. -/
inductive Outcome (σ α : Type)
  | ret (a : α) (s : σ)
  | panic (k : PanicKind) (s : σ)
  | blocked (s : σ)

/-- The function `NewConn` on a transport that will deliver `input` and has sent
`output`. -/
def NewConn (input output : Bytes) : Conn :=
  { input := input, bw := [], output := output, mu := false, closed := false }

/-- The method `(*bufio.Writer).WriteString`, also `Write`: the bytes join those held
by the writer.  A full buffer is flushed early by bufio, which only sends bytes sooner
than the `Flush` that ends every public method does. -/
def Conn.bwWrite (c : Conn) (p : Bytes) : Conn := { c with bw := c.bw ++ p }

/-- The method `(*bufio.Writer).Flush`. -/
def Conn.Flush (c : Conn) : Conn := { c with output := c.output ++ c.bw, bw := [] }

/-- The frame of every public method of `*Conn`:
`c.mu.Lock(); defer c.mu.Unlock(); defer c.bw.Flush()` (the last when `flush`)
around `body`.  Deferred calls run on return and on panic. -/
def withLock {α : Type} (flush : Bool) (body : Conn → Outcome Conn α) (c : Conn) :
    Outcome Conn α :=
  if c.mu then Outcome.blocked c
  else
    match body { c with mu := true } with
    | Outcome.ret a c1 => Outcome.ret a { (if flush then c1.Flush else c1) with mu := false }
    | Outcome.panic k c1 => Outcome.panic k { (if flush then c1.Flush else c1) with mu := false }
    | Outcome.blocked c1 => Outcome.blocked c1

/-- The method `(*Conn).ReadReply`. -/
def ReadReply (c : Conn) : Outcome Conn (Value × Option GoError) :=
  withLock false (fun c1 =>
    match readReply c1.input with
    | (Reply.ret v err, rest) => Outcome.ret (v, err) { c1 with input := rest }
    | (Reply.panic k, rest) => Outcome.panic k { c1 with input := rest }) c

/-- The method `(*Conn).WriteStatus`. -/
def WriteStatus (reply : Bytes) (c : Conn) : Outcome Conn (Option GoError) :=
  withLock true (fun c1 =>
    Outcome.ret none (((c1.bwWrite (lit "+")).bwWrite reply).bwWrite (lit "\r\n"))) c

/-- The method `(*Conn).WriteInteger`. -/
def WriteInteger (reply : Int) (c : Conn) : Outcome Conn (Option GoError) :=
  withLock true (fun c1 =>
    Outcome.ret none (((c1.bwWrite (lit ":")).bwWrite (Itoa reply)).bwWrite (lit "\r\n"))) c

/-- The method `(*Conn).WriteError`; `reply` is the text `reply.Error()` of the
error passed. -/
def WriteError (reply : Bytes) (c : Conn) : Outcome Conn (Option GoError) :=
  withLock true (fun c1 =>
    Outcome.ret none (((c1.bwWrite (lit "-")).bwWrite reply).bwWrite (lit "\r\n"))) c

/-- The method `(*Conn).writeNil`. -/
def writeNil (c : Conn) : Conn := c.bwWrite (lit "$-1\r\n")

/-- The method `(*Conn).WriteNil`. -/
def WriteNil (c : Conn) : Outcome Conn (Option GoError) :=
  withLock true (fun c1 => Outcome.ret none (writeNil c1)) c

/-- The method `(*Conn).writeLen`. -/
def writeLen (head : Bytes) (n : Int) (c : Conn) : Conn :=
  ((c.bwWrite head).bwWrite (Itoa n)).bwWrite (lit "\r\n")

/-- The method `(*Conn).writeString`. -/
def writeString (reply : Bytes) (c : Conn) : Conn :=
  (writeLen (lit "$") reply.length c).bwWrite (reply ++ lit "\r\n")

/-- The method `(*Conn).writeBytes`. -/
def writeBytes (reply : Bytes) (c : Conn) : Conn :=
  (writeLen (lit "$") reply.length c).bwWrite reply

/-- The payloads (`interface{}`) handed to `WriteBulk` and `WriteReply`, by the
case of the type switch of `writeBulk` that they select.  A floating-point payload
is given by the text `strconv.FormatFloat(x, 'g', 10, 64)` of it, a payload of any
other type by the text that `fmt.Fprint` prints for it. -/
inductive Payload
  | null
  | string (s : Bytes)
  | bytes (b : Bytes)
  | int (n : Int)
  | int64 (n : Int)
  | float32 (formatted : Bytes)
  | float64 (formatted : Bytes)
  | bool (b : Bool)
  | other (printed : Bytes)
  deriving DecidableEq

/-- The method `(*Conn).writeBulk`. -/
def writeBulk (reply : Payload) (c : Conn) : Outcome Conn (Option GoError) :=
  match reply with
  | Payload.null =>
    match WriteNil c with
    | Outcome.ret _ c1 => Outcome.ret none c1
    | Outcome.panic k c1 => Outcome.panic k c1
    | Outcome.blocked c1 => Outcome.blocked c1
  | Payload.string s => Outcome.ret none (writeString s c)
  | Payload.bytes b => Outcome.ret none (writeString b c)
  | Payload.int n => Outcome.ret none (writeString (FormatInt n) c)
  | Payload.int64 n => Outcome.ret none (writeString (FormatInt n) c)
  | Payload.float32 f => Outcome.ret none (writeString f c)
  | Payload.float64 f => Outcome.ret none (writeString f c)
  | Payload.bool b => Outcome.ret none (writeString (if b then lit "1" else lit "0") c)
  | Payload.other p => Outcome.ret none (writeBytes p c)

/-- The method `(*Conn).WriteBulk`. -/
def WriteBulk (reply : Payload) (c : Conn) : Outcome Conn (Option GoError) :=
  withLock true (writeBulk reply) c

/-- The loop `for _, arg := range args` of `WriteReply`; `err` is its variable. -/
def writeReplyLoop : List Payload → Option GoError → Conn → Outcome Conn (Option GoError)
  | [], err, c => Outcome.ret err c
  | arg :: args, _, c =>
    match writeBulk arg c with
    | Outcome.ret none c1 => writeReplyLoop args none c1
    | Outcome.ret (some err) c1 => Outcome.ret (some err) c1
    | Outcome.panic k c1 => Outcome.panic k c1
    | Outcome.blocked c1 => Outcome.blocked c1

/-- The method `(*Conn).WriteReply`. -/
def WriteReply (args : List Payload) (c : Conn) : Outcome Conn (Option GoError) :=
  withLock true (fun c1 => writeReplyLoop args none (writeLen (lit "*") args.length c1)) c

/-! ## Requests -/

/-- The type `Request`. -/
structure Request where
  Method : Bytes
  Args : List Value

/-- The function `strings.ToLower`.  On a string of ASCII bytes it maps `A`..`Z` to
`a`..`z`; on any other string it is `strings.Map(unicode.ToLower, s)`, a function
of the Go library that is taken as the parameter `unicodeLower`. -/
def ToLower (unicodeLower : Bytes → Bytes) (s : Bytes) : Bytes :=
  if s.all (fun c => decide (c < 128)) then
    if s.any (fun c => decide (65 ≤ c ∧ c ≤ 90)) then
      s.map (fun c => if 65 ≤ c ∧ c ≤ 90 then c + 32 else c)
    else s
  else unicodeLower s

/-- The method `(*Conn).ReadRequest`: the request, or the error returned with a
nil request. -/
def ReadRequest (unicodeLower : Bytes → Bytes) (conn : Conn) :
    Outcome Conn (Except GoError Request) :=
  match ReadReply conn with
  | Outcome.ret (_, some err) c1 => Outcome.ret (Except.error err) c1
  | Outcome.ret (reply, none) c1 =>
    match reply with
    | Value.array [] =>
      Outcome.ret (Except.error (GoError.errorString (lit "bad request"))) c1
    | Value.array (Value.str method :: rest) =>
      Outcome.ret (Except.ok { Method := ToLower unicodeLower method, Args := rest }) c1
    | _ => Outcome.ret (Except.error (GoError.errorString (lit "bad request"))) c1
  | Outcome.panic k c1 => Outcome.panic k c1
  | Outcome.blocked c1 => Outcome.blocked c1

/-! ## The server -/

/-- The type `HandlerFunc`: a handler works on the connection and returns nothing. -/
abbrev HandlerFunc := Conn → Request → Outcome Conn Unit

/-- A Go map from method names to handlers, as the lookup function of it. -/
abbrev HandlerMap := Bytes → Option HandlerFunc

/-- State of a `*Server`: `mu` tells whether `s.mu` is held, `handlers` is the map,
`none` for the nil map. -/
structure Server where
  mu : Bool
  handlers : Option HandlerMap

/-- The function `NewServer`. -/
def NewServer : Server := { mu := false, handlers := some (fun _ => none) }

/-- The lookup `s.handlers[method]`; a nil map has no key. -/
def Server.lookup (s : Server) (method : Bytes) : Option HandlerFunc :=
  match s.handlers with
  | none => none
  | some h => h method

/-- The assignment `m[method] = fc` on a map. -/
def HandlerMap.set (h : HandlerMap) (method : Bytes) (fc : HandlerFunc) : HandlerMap :=
  fun k => if k = method then some fc else h k

/-- The method `(*Server).AddHandler`. -/
def AddHandler (method : Bytes) (fc : HandlerFunc) (s : Server) :
    Outcome Server (Option GoError) :=
  if s.mu then Outcome.blocked s
  else
    let s1 : Server := { s with mu := true }
    let s2 : Server :=
      match s1.handlers with
      | none => { s1 with handlers := some (fun _ => none) }
      | some _ => s1
    match s2.lookup method with
    | some _ =>
      Outcome.ret
        (some (GoError.errorString (lit "resp server: handler already set for method: " ++ method)))
        { s2 with mu := false }
    | none =>
      Outcome.ret none
        { s2 with handlers := some (HandlerMap.set (s2.handlers.getD (fun _ => none)) method fc),
                  mu := false }

/-- How a run of `Handle` ends. -/
inductive HandleEnd
  | returned
  | panicked (k : PanicKind)
  | blocked
  deriving DecidableEq

/-- A run of `Handle`: the state of the connection at the end, the requests on
which a handler was invoked, in order, and how the run ends. -/
structure HandleResult where
  conn : Conn
  calls : List Request
  ending : HandleEnd

/-- The loop of `(*Server).Handle`, at most `fuel` iterations; `calls` are the
handler invocations so far. -/
def handleLoop (unicodeLower : Bytes → Bytes) (s : Server) :
    Nat → Conn → List Request → Option HandleResult
  | 0, _, _ => none
  | fuel + 1, conn, calls =>
    match ReadRequest unicodeLower conn with
    | Outcome.ret (Except.error _) c1 =>
      some { conn := c1, calls := calls, ending := HandleEnd.returned }
    | Outcome.ret (Except.ok req) c1 =>
      match s.lookup req.Method with
      | none =>
        match WriteError (lit "unsurport method:" ++ req.Method) c1 with
        | Outcome.ret _ c2 => some { conn := c2, calls := calls, ending := HandleEnd.returned }
        | Outcome.panic k c2 =>
          some { conn := c2, calls := calls, ending := HandleEnd.panicked k }
        | Outcome.blocked c2 => some { conn := c2, calls := calls, ending := HandleEnd.blocked }
      | some handler =>
        match handler c1 req with
        | Outcome.ret _ c2 => handleLoop unicodeLower s fuel c2 (calls ++ [req])
        | Outcome.panic k c2 =>
          some { conn := c2, calls := calls ++ [req], ending := HandleEnd.panicked k }
        | Outcome.blocked c2 =>
          some { conn := c2, calls := calls ++ [req], ending := HandleEnd.blocked }
    | Outcome.panic k c1 => some { conn := c1, calls := calls, ending := HandleEnd.panicked k }
    | Outcome.blocked c1 => some { conn := c1, calls := calls, ending := HandleEnd.blocked }

/-- The method `(*Server).Handle` on a transport that will deliver `input` and has
sent `output`: `defer c.Close()`, `NewConn`, then the loop.  The deferred `Close`
runs when the loop returns or panics; `none` when `fuel` iterations do not end the
loop. -/
def Handle (unicodeLower : Bytes → Bytes) (s : Server) (fuel : Nat) (input output : Bytes) :
    Option HandleResult :=
  match handleLoop unicodeLower s fuel (NewConn input output) [] with
  | none => none
  | some r =>
    match r.ending with
    | HandleEnd.blocked => some r
    | _ => some { r with conn := { r.conn with closed := true } }

/-! ## Wire forms -/

/-- The wire form of a bulk string: `$<len>\r\n<bytes>\r\n`. -/
def bulkFrame (s : Bytes) : Bytes :=
  lit "$" ++ Itoa (s.length : Int) ++ lit "\r\n" ++ (s ++ lit "\r\n")

/-- The wire forms of the bulk strings of a list, one after the other. -/
def bulkFrames : List Bytes → Bytes
  | [] => []
  | s :: L => bulkFrame s ++ bulkFrames L

/-- The state of a connection after a public write method has sent the bytes `p`:
what the writer held and `p` are on the wire, the writer holds nothing. -/
def Conn.sent (c : Conn) (p : Bytes) : Conn :=
  { c with bw := [], output := c.output ++ (c.bw ++ p) }

/-- The base-10 text of an integer: a minus sign for a negative number, then the
decimal digits of the magnitude, most significant first, `0` for zero. -/
def decimalText (n : Int) : Bytes :=
  (if n < 0 then lit "-" else []) ++
    (if n = 0 then lit "0" else ((Nat.digits 10 n.natAbs).reverse).map (fun d => 48 + d))

/-- The values `vs` are decoded by `readReply`, each with a nil error, one after the
other from the bytes `s`, and the bytes `s1` are left unread. -/
def decodesTo : Bytes → List Value → Bytes → Prop
  | s, [], s1 => s = s1
  | s, v :: vs, s1 => ∃ s0, readReply s = (Reply.ret v none, s0) ∧ decodesTo s0 vs s1

/-- The result types that the comment on `readReply` lists,
`int64|string|nil|[]interface{}`: whether the value has one of them. -/
def Value.documented : Value → Bool
  | Value.null => true
  | Value.str _ => true
  | Value.int64 _ => true
  | Value.array _ => true
  | Value.error _ => false

/-- A sample handler: it answers every request with the status `PONG`. -/
def pongHandler : HandlerFunc := fun c _ =>
  match WriteStatus (lit "PONG") c with
  | Outcome.ret _ c1 => Outcome.ret () c1
  | Outcome.panic k c1 => Outcome.panic k c1
  | Outcome.blocked c1 => Outcome.blocked c1

/-- A sample server: `NewServer` after `AddHandler("ping", pongHandler)`. -/
def pingServer : Server :=
  { mu := false, handlers := some (fun k => if k = lit "ping" then some pongHandler else none) }

/-! ## Lemmas on the library functions -/

theorem indexByte_append (d : Nat) (l r : Bytes) (h : d ∉ l) :
    indexByte d (l ++ d :: r) = some l.length := by
  induction l with
  | nil => simp [indexByte]
  | cons a l ih =>
    have ha : a ≠ d := fun e => h (by simp [e])
    have hl : d ∉ l := fun e => h (by simp [e])
    simp [indexByte, ha, ih hl]

theorem indexByte_none (d : Nat) (l : Bytes) (h : d ∉ l) : indexByte d l = none := by
  induction l with
  | nil => simp [indexByte]
  | cons a l ih =>
    have ha : a ≠ d := fun e => h (by simp [e])
    have hl : d ∉ l := fun e => h (by simp [e])
    simp [indexByte, ha, ih hl]

theorem dropEOL_crlf (l : Bytes) : dropEOL (l ++ [CR, LF]) = l := by
  have h1 : (l ++ [CR, LF]).getLast? = some LF := by simp
  have h2 : (l ++ [CR, LF]).dropLast = l ++ [CR] := by
    rw [show l ++ [CR, LF] = (l ++ [CR]) ++ [LF] by simp]
    exact List.dropLast_concat
  simp [dropEOL, h1, h2]

theorem dropEOL_lf (l : Bytes) (h : l.getLast? ≠ some CR) : dropEOL (l ++ [LF]) = l := by
  simp [dropEOL, h]

/-- A line that ends in CR LF within the buffer is read without its terminator. -/
theorem ReadLine_crlf (l r : Bytes) (h : LF ∉ l) (hlen : l.length + 1 < defaultBufSize) :
    ReadLine (l ++ CR :: LF :: r) = { line := l, isPrefix := false, err := none, rest := r } := by
  have hmem : LF ∉ l ++ [CR] := by
    simp only [List.mem_append, List.mem_singleton, not_or]
    exact ⟨h, by decide⟩
  have e1 : l ++ CR :: LF :: r = (l ++ [CR]) ++ LF :: r := by simp
  have hidx : indexByte LF ((l ++ CR :: LF :: r).take defaultBufSize) = some (l.length + 1) := by
    rw [e1, List.take_append_eq_append_take]
    have h3 : (l ++ [CR]).length = l.length + 1 := by simp
    rw [List.take_of_length_le (by omega)]
    have h4 : defaultBufSize - (l ++ [CR]).length = (defaultBufSize - (l.length + 2)) + 1 := by
      rw [h3]; omega
    rw [h4, List.take_succ_cons, indexByte_append _ _ _ hmem, h3]
  have htake : (l ++ CR :: LF :: r).take (l.length + 1 + 1) = l ++ [CR, LF] := by
    rw [show l ++ CR :: LF :: r = (l ++ [CR, LF]) ++ r by simp]
    exact List.take_left' (by simp)
  have hdrop : (l ++ CR :: LF :: r).drop (l.length + 1 + 1) = r := by
    rw [show l ++ CR :: LF :: r = (l ++ [CR, LF]) ++ r by simp]
    exact List.drop_left' (by simp)
  simp only [ReadLine, ReadSlice, hidx, htake, hdrop, dropEOL_crlf]
  simp

/-! ## Decimal text: `formatBits` and `ParseUint` -/

theorem formatBitsAux_fuel (n : Nat) : ∀ (f1 f2 : Nat) (acc : Bytes), n < f1 → n < f2 →
    formatBitsAux f1 n acc = formatBitsAux f2 n [] ++ acc := by
  induction n using Nat.strong_induction_on with
  | _ n ih =>
    intro f1 f2 acc h1 h2
    obtain ⟨g1, rfl⟩ : ∃ g, f1 = g + 1 := ⟨f1 - 1, by omega⟩
    obtain ⟨g2, rfl⟩ : ∃ g, f2 = g + 1 := ⟨f2 - 1, by omega⟩
    by_cases hn : n < 10
    · simp [formatBitsAux, hn]
    · simp only [formatBitsAux, hn, if_false]
      have hd : n / 10 < n := by omega
      rw [ih (n / 10) hd g1 g2 _ (by omega) (by omega),
        ih (n / 10) hd g2 g2 [48 + n % 10] (by omega) (by omega)]
      simp

theorem formatBits_lt (n : Nat) (h : n < 10) : formatBits n = [48 + n] := by
  simp [formatBits, formatBitsAux, h]

theorem formatBits_ge (n : Nat) (h : ¬ n < 10) :
    formatBits n = formatBits (n / 10) ++ [48 + n % 10] := by
  unfold formatBits
  simp only [formatBitsAux, h, if_false]
  exact formatBitsAux_fuel (n / 10) n (n / 10 + 1) _ (by omega) (by omega)

/-- Every byte of the decimal text is a digit. -/
theorem formatBits_digits (n : Nat) : ∀ c : Nat, c ∈ formatBits n → 48 ≤ c ∧ c ≤ 57 := by
  induction n using Nat.strong_induction_on with
  | _ n ih =>
    by_cases hn : n < 10
    · rw [formatBits_lt n hn]
      intro c hc
      simp only [List.mem_singleton] at hc
      subst hc
      omega
    · rw [formatBits_ge n hn]
      intro c hc
      simp only [List.mem_append, List.mem_singleton] at hc
      rcases hc with hc | hc
      · exact ih (n / 10) (by omega) c hc
      · subst hc
        omega

theorem formatBits_ne_nil (n : Nat) : formatBits n ≠ [] := by
  by_cases hn : n < 10
  · rw [formatBits_lt n hn]; simp
  · rw [formatBits_ge n hn]; simp

/-- The decimal text of a number below `10 ^ k` has at most `k` bytes. -/
theorem formatBits_length (k : Nat) : ∀ n : Nat, n < 10 ^ (k + 1) →
    (formatBits n).length ≤ k + 1 := by
  induction k with
  | zero =>
    intro n h
    rw [formatBits_lt n (by simpa using h)]
    simp
  | succ k ih =>
    intro n h
    by_cases hn : n < 10
    · rw [formatBits_lt n hn]; simp
    · rw [formatBits_ge n hn]
      have : n / 10 < 10 ^ (k + 1) := by
        rw [Nat.div_lt_iff_lt_mul (by decide)]
        calc n < 10 ^ (k + 1 + 1) := h
          _ = 10 ^ (k + 1) * 10 := by ring
      have := ih (n / 10) this
      simp only [List.length_append, List.length_singleton]
      omega

theorem parseUintLoop_append (s0 : Bytes) : ∀ (xs ys : Bytes) (a v : Nat),
    parseUintLoop s0 xs a = (v, none) →
    parseUintLoop s0 (xs ++ ys) a = parseUintLoop s0 ys v := by
  intro xs
  induction xs with
  | nil =>
    intro ys a v h
    simp only [parseUintLoop, Prod.mk.injEq, and_true] at h
    simp [h]
  | cons c cs ih =>
    intro ys a v h
    simp only [List.cons_append]
    simp only [parseUintLoop] at h ⊢
    split <;> rename_i hd
    · rw [hd] at h; simp at h
    · rw [hd] at h
      simp only at h
      split_ifs at h ⊢ with h1 h2 h3
      · simp at h
      · simp at h
      · simp at h
      · exact ih ys _ v h

theorem parseUintLoop_digit (s0 : Bytes) (a d : Nat) (hd : d < 10)
    (h : a * 10 + d < 2 ^ 64) : parseUintLoop s0 [48 + d] a = (a * 10 + d, none) := by
  have h1 : (48 ≤ 48 + d ∧ 48 + d ≤ 57) := by omega
  have h2 : ¬ (a ≥ (2 ^ 64 - 1) / 10 + 1) := by
    norm_num
    omega
  have h3 : (a * 10) % 2 ^ 64 = a * 10 := Nat.mod_eq_of_lt (by omega)
  have h4 : (a * 10 + d) % 2 ^ 64 = a * 10 + d := Nat.mod_eq_of_lt h
  unfold parseUintLoop
  simp only [h1, and_self, if_true, Nat.add_sub_cancel_left]
  simp only [ge_iff_le, Nat.not_le.mpr hd, if_false, h2, h3, h4, intSize]
  have h5 : ¬ (a * 10 + d < a * 10 ∨ a * 10 + d > 2 ^ 64 - 1) := by omega
  simp only [h5, if_false, parseUintLoop]

/-- The loop of `ParseUint` reads the decimal text of `n` back as `n`. -/
theorem parseUintLoop_formatBits (s0 : Bytes) (n : Nat) (h : n < 2 ^ 64) :
    parseUintLoop s0 (formatBits n) 0 = (n, none) := by
  induction n using Nat.strong_induction_on with
  | _ n ih =>
    by_cases hn : n < 10
    · rw [formatBits_lt n hn]
      have := parseUintLoop_digit s0 0 n hn (by omega)
      simpa using this
    · rw [formatBits_ge n hn,
        parseUintLoop_append s0 _ _ 0 (n / 10) (ih (n / 10) (by omega) (by omega)),
        parseUintLoop_digit s0 (n / 10) (n % 10) (by omega) (by omega)]
      congr 1
      omega

theorem ParseUint_formatBits (n : Nat) (h : n < 2 ^ 64) :
    ParseUint (formatBits n) = (n, none) := by
  simp only [ParseUint, formatBits_ne_nil, if_false]
  exact parseUintLoop_formatBits _ n h

/-- `ParseInt` reads the text that `FormatInt` writes for an `int64` back as the
same number. -/
theorem ParseInt_FormatInt (i : Int) (hlo : -(2 ^ 63) ≤ i) (hhi : i < 2 ^ 63) :
    ParseInt (FormatInt i) = (i, none) := by
  by_cases hneg : i < 0
  · have hn : (-i).toNat < 2 ^ 64 := by omega
    have hu := ParseUint_formatBits (-i).toNat hn
    simp only [FormatInt, hneg, if_true, ParseInt]
    simp only [or_true, if_true, hu]
    have hc : ¬ ((-i).toNat > 2 ^ (intSize - 1)) := by
      simp only [intSize]
      omega
    simp only [decide_True, Bool.true_eq_false, false_and, if_false, true_and, hc, if_true]
    congr 1
    omega
  · have hn : i.toNat < 2 ^ 64 := by omega
    have hu := ParseUint_formatBits i.toNat hn
    obtain ⟨c, cs, hcs⟩ : ∃ c cs, formatBits i.toNat = c :: cs := by
      cases hfb : formatBits i.toNat with
      | nil => exact absurd hfb (formatBits_ne_nil _)
      | cons c cs => exact ⟨c, cs, rfl⟩
    have hd := formatBits_digits i.toNat c (by rw [hcs]; simp)
    have h43 : ¬ (c = 43 ∨ c = 45) := by omega
    have h45 : ¬ (c = 45) := by omega
    simp only [FormatInt, hneg, if_false, hcs, ParseInt, h43]
    rw [← hcs, hu]
    have hc : ¬ (i.toNat ≥ 2 ^ (intSize - 1)) := by
      simp only [intSize]
      omega
    simp only [h45, decide_False, true_and, hc, if_false, Bool.false_eq_true, false_and]
    congr 1
    omega

theorem FormatInt_no_LF (i : Int) : LF ∉ FormatInt i := by
  intro h
  unfold FormatInt at h
  split_ifs at h
  · simp only [List.mem_cons] at h
    rcases h with h | h
    · exact absurd h (by decide)
    · have := formatBits_digits _ LF h
      simp [LF] at this
  · have := formatBits_digits _ LF h
    simp [LF] at this

theorem FormatInt_length (i : Int) (hlo : -(2 ^ 63) ≤ i) (hhi : i < 2 ^ 63) :
    (FormatInt i).length ≤ 20 := by
  unfold FormatInt
  split_ifs
  · have := formatBits_length 18 (-i).toNat (by norm_num; omega)
    simp only [List.length_cons]
    omega
  · have := formatBits_length 18 i.toNat (by norm_num; omega)
    omega

/-! ## Decoding the frames that the encoder writes -/

theorem lit_crlf : lit "\r\n" = [CR, LF] := by decide

theorem ReadLine_header (tag : Nat) (i : Int) (r : Bytes) (htag : tag ≠ LF)
    (hlo : -(2 ^ 63) ≤ i) (hhi : i < 2 ^ 63) :
    ReadLine (tag :: FormatInt i ++ CR :: LF :: r) =
      { line := tag :: FormatInt i, isPrefix := false, err := none, rest := r } := by
  have hlen := FormatInt_length i hlo hhi
  have h := ReadLine_crlf (tag :: FormatInt i) r
    (by
      simp only [List.mem_cons, not_or]
      exact ⟨fun e => htag e.symm, FormatInt_no_LF i⟩)
    (by simp only [List.length_cons, defaultBufSize]; omega)
  simpa using h

theorem ReadFull_append (s r : Bytes) : ReadFull s.length (s ++ r) = (s, none, r) := by
  simp [ReadFull]

/-- A bulk frame `$<len>\r\n<bytes>\r\n` is decoded to its payload, and the bytes
after the frame are left unread. -/
theorem readReplyAux_bulk (fuel : Nat) (s rest : Bytes) (hs : s.length ≤ maxAlloc) :
    readReplyAux (fuel + 1)
        (36 :: FormatInt (s.length : Int) ++ CR :: LF :: (s ++ CR :: LF :: rest)) =
      some (Reply.ret (Value.str s) none, rest) := by
  have hm : s.length ≤ 2 ^ 48 := hs
  have h1 := ReadLine_header 36 (s.length : Int) (s ++ CR :: LF :: rest) (by decide)
    (by omega) (by omega)
  have h2 := ParseInt_FormatInt (s.length : Int) (by omega) (by omega)
  have h3 : ReadLine (CR :: LF :: rest) =
      { line := [], isPrefix := false, err := none, rest := rest } := by
    have := ReadLine_crlf [] rest (by simp) (by simp [defaultBufSize])
    simpa using this
  have h4 : makesliceOK 1 (s.length : Int) = true := by
    simp only [makesliceOK, maxAlloc, decide_eq_true_eq]
    omega
  have h5 : ((s.length : Int) = -1) = False := by
    simp only [eq_iff_iff, iff_false]
    omega
  simp only [readReplyAux, h1, h2, h3, h4, h5, if_false, Int.toNat_ofNat,
    ReadFull_append]
  simp

theorem readReply_of_aux (x : Bytes) (r : Reply × Bytes)
    (h : readReplyAux (x.length + 1) x = some r) : readReply x = r := by
  simp [readReply, h]

theorem bulk_frame_eq (s rest : Bytes) :
    lit "$" ++ Itoa (s.length : Int) ++ lit "\r\n" ++ (s ++ lit "\r\n") ++ rest =
      36 :: FormatInt (s.length : Int) ++ CR :: LF :: (s ++ CR :: LF :: rest) := by
  have h : lit "$" = [36] := by decide
  simp [h, lit_crlf, Itoa]

theorem readReply_bulk (s rest : Bytes) (hs : s.length ≤ maxAlloc) :
    readReply (lit "$" ++ Itoa (s.length : Int) ++ lit "\r\n" ++ (s ++ lit "\r\n") ++ rest) =
      (Reply.ret (Value.str s) none, rest) := by
  apply readReply_of_aux
  rw [bulk_frame_eq]
  exact readReplyAux_bulk _ s rest hs

theorem writeReplyLoop_strings (L : List Bytes) : ∀ c : Conn,
    writeReplyLoop (L.map Payload.string) none c =
      Outcome.ret none { c with bw := c.bw ++ bulkFrames L } := by
  induction L with
  | nil => intro c; simp [writeReplyLoop, bulkFrames]
  | cons s L ih =>
    intro c
    simp only [List.map_cons, writeReplyLoop, writeBulk, ih]
    simp [writeString, writeLen, Conn.bwWrite, bulkFrames, bulkFrame]

theorem readArray_bulkFrames (fuel : Nat) (L : List Bytes) :
    ∀ (rts : List Value) (rest : Bytes), (∀ s ∈ L, s.length ≤ maxAlloc) →
      readArray (readReplyAux (fuel + 1)) L.length (bulkFrames L ++ rest) rts =
        some (Reply.ret (Value.array (rts ++ L.map Value.str)) none, rest) := by
  induction L with
  | nil => intro rts rest _; simp [readArray, bulkFrames]
  | cons s L ih =>
    intro rts rest hs
    have h1 : bulkFrames (s :: L) ++ rest =
        36 :: FormatInt (s.length : Int) ++ CR :: LF :: (s ++ CR :: LF :: (bulkFrames L ++ rest)) := by
      rw [← bulk_frame_eq]
      simp [bulkFrames, bulkFrame]
    have h2 := readReplyAux_bulk fuel s (bulkFrames L ++ rest) (hs s (by simp))
    simp only [List.length_cons, readArray, h1, h2]
    rw [ih (rts ++ [Value.str s]) rest (fun t ht => hs t (by simp [ht]))]
    simp

/-- An array frame of bulk strings is decoded to the array of the strings. -/
theorem readReplyAux_array (fuel : Nat) (L : List Bytes) (rest : Bytes)
    (hL : L.length * 16 ≤ maxAlloc) (hs : ∀ s ∈ L, s.length ≤ maxAlloc) :
    readReplyAux (fuel + 2)
        (42 :: FormatInt (L.length : Int) ++ CR :: LF :: (bulkFrames L ++ rest)) =
      some (Reply.ret (Value.array (L.map Value.str)) none, rest) := by
  have hm : L.length * 16 ≤ 2 ^ 48 := hL
  have h1 := ReadLine_header 42 (L.length : Int) (bulkFrames L ++ rest) (by decide)
    (by omega) (by omega)
  have h2 := ParseInt_FormatInt (L.length : Int) (by omega) (by omega)
  have h4 : makesliceOK 16 (L.length : Int) = true := by
    simp only [makesliceOK, maxAlloc, decide_eq_true_eq]
    omega
  have h5 : ((L.length : Int) < 0) = False := by
    simp only [eq_iff_iff, iff_false]
    omega
  have h6 := readArray_bulkFrames fuel L [] rest hs
  simp only [readReplyAux, h1, h2, h4, h5, if_false, Int.toNat_ofNat] at h6 ⊢
  simpa using h6

theorem readReply_array (L : List Bytes) (rest : Bytes)
    (hL : L.length * 16 ≤ maxAlloc) (hs : ∀ s ∈ L, s.length ≤ maxAlloc) :
    readReply (lit "*" ++ Itoa (L.length : Int) ++ lit "\r\n" ++ bulkFrames L ++ rest) =
      (Reply.ret (Value.array (L.map Value.str)) none, rest) := by
  have h : lit "*" = [42] := by decide
  have e : lit "*" ++ Itoa (L.length : Int) ++ lit "\r\n" ++ bulkFrames L ++ rest =
      42 :: (FormatInt (L.length : Int) ++ CR :: LF :: (bulkFrames L ++ rest)) := by
    simp [h, lit_crlf, Itoa]
  rw [e]
  apply readReply_of_aux
  simp only [List.length_cons]
  exact readReplyAux_array _ L rest hL hs

/-- The text of `formatBits` is the base-10 representation: the digits of `n`, most
significant first, as ASCII. -/
theorem formatBits_eq_digits (n : Nat) (h0 : n ≠ 0) :
    formatBits n = ((Nat.digits 10 n).reverse).map (fun d => 48 + d) := by
  induction n using Nat.strong_induction_on with
  | _ n ih =>
    by_cases hn : n < 10
    · rw [formatBits_lt n hn, Nat.digits_of_lt 10 n h0 hn]
      simp
    · rw [formatBits_ge n hn, Nat.digits_def' (by decide) (by omega),
        ih (n / 10) (by omega) (by omega)]
      simp

/-- An integer frame `:<decimal>\r\n` is decoded to the number. -/
theorem readReplyAux_integer (fuel : Nat) (n : Int) (rest : Bytes)
    (hlo : -(2 ^ 63) ≤ n) (hhi : n < 2 ^ 63) :
    readReplyAux (fuel + 1) (58 :: FormatInt n ++ CR :: LF :: rest) =
      some (Reply.ret (Value.int64 n) none, rest) := by
  have h1 := ReadLine_header 58 n rest (by decide) hlo hhi
  have h2 := ParseInt_FormatInt n hlo hhi
  simp only [readReplyAux, h1, h2]
  simp

theorem readReply_integer (n : Int) (rest : Bytes) (hlo : -(2 ^ 63) ≤ n) (hhi : n < 2 ^ 63) :
    readReply (lit ":" ++ Itoa n ++ lit "\r\n" ++ rest) =
      (Reply.ret (Value.int64 n) none, rest) := by
  have h : lit ":" = [58] := by decide
  have e : lit ":" ++ Itoa n ++ lit "\r\n" ++ rest = 58 :: FormatInt n ++ CR :: LF :: rest := by
    simp [h, lit_crlf, Itoa]
  rw [e]
  apply readReply_of_aux
  exact readReplyAux_integer _ n rest hlo hhi

/-- A line of `defaultBufSize - 1` bytes followed by CR fills the buffer before its LF
is seen: it comes back as a partial line and the CR is put back. -/
theorem ReadLine_full (l r : Bytes) (h : LF ∉ l) (hlen : l.length + 1 = defaultBufSize) :
    ReadLine (l ++ CR :: r) = { line := l, isPrefix := true, err := none, rest := CR :: r } := by
  have hmem : LF ∉ l ++ [CR] := by
    simp only [List.mem_append, List.mem_singleton, not_or]
    exact ⟨h, by decide⟩
  have e1 : l ++ CR :: r = (l ++ [CR]) ++ r := by simp
  have htake : (l ++ CR :: r).take defaultBufSize = l ++ [CR] := by
    rw [e1]
    exact List.take_left' (by simp [hlen])
  have hdrop : (l ++ CR :: r).drop defaultBufSize = r := by
    rw [e1]
    exact List.drop_left' (by simp [hlen])
  have hlt : ¬ ((l ++ CR :: r).length < defaultBufSize) := by
    simp only [List.length_append, List.length_cons]
    omega
  simp only [ReadLine, ReadSlice, htake, indexByte_none LF _ hmem, hlt, if_false, hdrop]
  simp

theorem ReadLine_tagged (tag : Nat) (t rest : Bytes) (htag : tag ≠ LF) (h : LF ∉ t)
    (hlen : t.length ≤ 4093) :
    ReadLine (tag :: t ++ CR :: LF :: rest) =
      { line := tag :: t, isPrefix := false, err := none, rest := rest } :=
  ReadLine_crlf (tag :: t) rest
    (by
      simp only [List.mem_cons, not_or]
      exact ⟨fun e => htag e.symm, h⟩)
    (by simp only [List.length_cons, defaultBufSize]; omega)

/-- A status frame `+<text>\r\n` whose line fits the buffer is decoded to the text. -/
theorem readReplyAux_status (fuel : Nat) (t rest : Bytes) (h : LF ∉ t) (hlen : t.length ≤ 4093) :
    readReplyAux (fuel + 1) (43 :: t ++ CR :: LF :: rest) =
      some (Reply.ret (Value.str t) none, rest) := by
  have h1 := ReadLine_tagged 43 t rest (by decide) h hlen
  simp only [readReplyAux, h1]
  simp

/-- An error frame `-<text>\r\n` whose line fits the buffer is decoded, with a nil
error, to the error value of that text. -/
theorem readReplyAux_error (fuel : Nat) (t rest : Bytes) (h : LF ∉ t) (hlen : t.length ≤ 4093) :
    readReplyAux (fuel + 1) (45 :: t ++ CR :: LF :: rest) =
      some (Reply.ret (Value.error t) none, rest) := by
  have h1 := ReadLine_tagged 45 t rest (by decide) h hlen
  simp only [readReplyAux, h1]
  simp

theorem readReply_status (t rest : Bytes) (h : LF ∉ t) (hlen : t.length ≤ 4093) :
    readReply (lit "+" ++ t ++ lit "\r\n" ++ rest) = (Reply.ret (Value.str t) none, rest) := by
  have hp : lit "+" = [43] := by decide
  have e : lit "+" ++ t ++ lit "\r\n" ++ rest = 43 :: t ++ CR :: LF :: rest := by
    simp [hp, lit_crlf]
  rw [e]
  exact readReply_of_aux _ _ (readReplyAux_status _ t rest h hlen)

theorem readReply_error (t rest : Bytes) (h : LF ∉ t) (hlen : t.length ≤ 4093) :
    readReply (lit "-" ++ t ++ lit "\r\n" ++ rest) = (Reply.ret (Value.error t) none, rest) := by
  have hp : lit "-" = [45] := by decide
  have e : lit "-" ++ t ++ lit "\r\n" ++ rest = 45 :: t ++ CR :: LF :: rest := by
    simp [hp, lit_crlf]
  rw [e]
  exact readReply_of_aux _ _ (readReplyAux_error _ t rest h hlen)

/-- A header line of 4095 bytes and more before its CR LF is refused. -/
theorem readReply_long_line (tag : Nat) (t rest : Bytes) (htag : tag ≠ LF) (h : LF ∉ t)
    (hlen : t.length = 4094) :
    readReply (tag :: t ++ CR :: LF :: rest) =
      (Reply.ret Value.null (some (GoError.errorString (lit "bad protocol"))),
        CR :: LF :: rest) := by
  have h1 := ReadLine_full (tag :: t) (LF :: rest)
    (by
      simp only [List.mem_cons, not_or]
      exact ⟨fun e => htag e.symm, h⟩)
    (by simp [hlen, defaultBufSize])
  apply readReply_of_aux
  simp only [readReplyAux, h1]
  simp

theorem status_frame_eq (tag : String) (c : Nat) (h : lit tag = [c]) (s : Bytes) :
    lit tag ++ s ++ lit "\r\n" = c :: s ++ CR :: LF :: [] := by
  simp [h, lit_crlf]

theorem ReadReply_long_line (tag : String) (c : Nat) (htag : lit tag = [c]) (hc : c ≠ LF)
    (s : Bytes) (hLF : LF ∉ s) (hlen : s.length = 4094) :
    ReadReply { NewConn [] [] with input := lit tag ++ s ++ lit "\r\n" } =
      Outcome.ret (Value.null, some (GoError.errorString (lit "bad protocol")))
        { NewConn [] [] with input := [CR, LF] } := by
  have h := readReply_long_line c s [] hc hLF hlen
  rw [status_frame_eq tag c htag]
  simp only [ReadReply, withLock, NewConn, Bool.false_eq_true, if_false, h]

/-- The array loop does not stop at an error frame: the error value is appended
and the loop goes on with the next element. -/
theorem readArray_error_frame (fuel n : Nat) (t rest : Bytes) (rts : List Value)
    (h : LF ∉ t) (hlen : t.length ≤ 4093) :
    readArray (readReplyAux (fuel + 1)) (n + 1) (lit "-" ++ t ++ lit "\r\n" ++ rest) rts =
      readArray (readReplyAux (fuel + 1)) n rest (rts ++ [Value.error t]) := by
  have hp : lit "-" = [45] := by decide
  have e : lit "-" ++ t ++ lit "\r\n" ++ rest = 45 :: t ++ CR :: LF :: rest := by
    simp [hp, lit_crlf]
  rw [e]
  simp only [readArray, readReplyAux_error fuel t rest h hlen]

/-- The array case up to the loop: a header `*<n>\r\n` with a count that
`makeslice` accepts starts the loop for `n` elements on the bytes after the header. -/
theorem readReplyAux_array_header (fuel n : Nat) (rest : Bytes) (hn : n * 16 ≤ maxAlloc) :
    readReplyAux (fuel + 2) (42 :: FormatInt (n : Int) ++ CR :: LF :: rest) =
      readArray (readReplyAux (fuel + 1)) n rest [] := by
  have hm : n * 16 ≤ 2 ^ 48 := hn
  have h1 := ReadLine_header 42 (n : Int) rest (by decide) (by omega) (by omega)
  have h2 := ParseInt_FormatInt (n : Int) (by omega) (by omega)
  have h4 : makesliceOK 16 (n : Int) = true := by
    simp only [makesliceOK, maxAlloc, decide_eq_true_eq]
    omega
  have h5 : ((n : Int) < 0) = False := by
    simp only [eq_iff_iff, iff_false]
    omega
  simp only [readReplyAux, h1, h2, h4, h5, if_false, Int.toNat_ofNat]
  simp

theorem readReply_array_of_error (t rest : Bytes) (h : LF ∉ t) (hlen : t.length ≤ 4093) :
    readReply (lit "*1\r\n" ++ (lit "-" ++ t ++ lit "\r\n" ++ rest)) =
      (Reply.ret (Value.array [Value.error t]) none, rest) := by
  have hh : lit "*1\r\n" = 42 :: FormatInt ((1 : Nat) : Int) ++ CR :: LF :: [] := by decide
  have e : lit "*1\r\n" ++ (lit "-" ++ t ++ lit "\r\n" ++ rest) =
      42 :: (FormatInt ((1 : Nat) : Int) ++ CR :: LF :: (lit "-" ++ t ++ lit "\r\n" ++ rest)) := by
    rw [hh]; simp
  rw [e]
  apply readReply_of_aux
  simp only [List.length_cons]
  refine (readReplyAux_array_header _ 1 _ (by decide)).trans ?_
  rw [readArray_error_frame _ 0 t rest [] h hlen]
  simp [readArray]

theorem indexByte_some (d : Nat) : ∀ (l : Bytes) (i : Nat), indexByte d l = some i →
    ∃ a b, l = a ++ d :: b ∧ a.length = i ∧ d ∉ a := by
  intro l
  induction l with
  | nil => intro i h; simp [indexByte] at h
  | cons x l ih =>
    intro i h
    by_cases hx : x = d
    · simp only [indexByte, hx, if_true, Option.some.injEq] at h
      exact ⟨[], l, by simp [hx], by simp [h], by simp⟩
    · simp only [indexByte, hx, if_false, Option.map_eq_some'] at h
      obtain ⟨j, hj, hji⟩ := h
      obtain ⟨a, b, hab, hlen, hmem⟩ := ih j hj
      refine ⟨x :: a, b, by simp [hab], by simp [hlen, hji], ?_⟩
      simp only [List.mem_cons, not_or]
      exact ⟨fun e => hx e.symm, hmem⟩

theorem indexByte_eq_none (d : Nat) : ∀ l : Bytes, indexByte d l = none → d ∉ l := by
  intro l
  induction l with
  | nil => intro _; simp
  | cons x l ih =>
    intro h
    by_cases hx : x = d
    · simp [indexByte, hx] at h
    · simp only [indexByte, hx, if_false, Option.map_eq_none'] at h
      simp only [List.mem_cons, not_or]
      exact ⟨fun e => hx e.symm, ih h⟩

theorem dropEOL_append_lf (a : Bytes) :
    dropEOL (a ++ [LF]) = if a.getLast? = some CR then a.dropLast else a := by
  have h1 : (a ++ [LF]).getLast? = some LF := by simp
  have h2 : (a ++ [LF]).dropLast = a := List.dropLast_concat
  simp only [dropEOL, h1, if_true, h2, List.length_append, List.length_singleton]
  by_cases h : a.getLast? = some CR
  · have : a ≠ [] := by
      intro e
      simp [e] at h
    have hl : 0 < a.length := List.length_pos.mpr this
    simp [h, hl]
  · simp [h]

/-- After the payload of a bulk string, a line that is neither empty nor a lone
CR LF or LF is read as a non-empty line with no error. -/
theorem ReadLine_nonempty (t : Bytes) (h0 : t ≠ []) (h1 : t.take 2 ≠ [CR, LF])
    (h2 : t.head? ≠ some LF) : (ReadLine t).err = none ∧ 0 < (ReadLine t).line.length := by
  cases hidx : indexByte LF (t.take defaultBufSize) with
  | some i =>
    obtain ⟨a, b, hab, hlen, hmem⟩ := indexByte_some LF _ i hidx
    have ht : t = a ++ LF :: (b ++ t.drop defaultBufSize) := by
      conv_lhs => rw [← List.take_append_drop defaultBufSize t, hab]
      simp
    have htake : t.take (i + 1) = a ++ [LF] := by
      rw [ht, show a ++ LF :: (b ++ t.drop defaultBufSize) =
        (a ++ [LF]) ++ (b ++ t.drop defaultBufSize) by simp]
      exact List.take_left' (by simp [hlen])
    have ha : a ≠ [] := by
      intro e
      rw [e] at ht
      rw [ht] at h2
      simp at h2
    simp only [ReadLine, ReadSlice, hidx, htake, dropEOL_append_lf]
    have hne : (a ++ [LF]).length ≠ 0 := by simp
    simp only [hne, if_false, true_and]
    by_cases hcr : a.getLast? = some CR
    · simp only [hcr, if_true, List.length_dropLast]
      have hl : 0 < a.length := List.length_pos.mpr ha
      by_contra hlt
      have h1len : a.length = 1 := by omega
      obtain ⟨x, hx⟩ := List.length_eq_one.mp h1len
      rw [hx] at hcr
      simp only [List.getLast?_singleton, Option.some.injEq] at hcr
      rw [ht, hx, hcr] at h1
      simp at h1
    · simp only [hcr, if_false]
      exact List.length_pos.mpr ha
  | none =>
    have hmem := indexByte_eq_none LF _ hidx
    by_cases hlt : t.length < defaultBufSize
    · have htk : t.take defaultBufSize = t := List.take_of_length_le (by omega)
      rw [htk] at hmem
      have hl : 0 < t.length := List.length_pos.mpr h0
      have hlast : t.getLast? ≠ some LF := by
        intro e
        exact hmem (List.mem_of_getLast?_eq_some e)
      have hne : t.length ≠ 0 := by omega
      simp only [ReadLine, ReadSlice, hidx, hlt, if_true, hne, if_false, dropEOL, hlast]
      exact ⟨trivial, hl⟩
    · have hlen : (t.take defaultBufSize).length = defaultBufSize := by
        rw [List.length_take]
        omega
      simp only [ReadLine, ReadSlice, hidx, hlt, if_false]
      split_ifs
      · simp only [List.length_dropLast, hlen, true_and]
        decide
      · simp only [hlen, true_and]
        decide

/-- A bulk frame whose payload is not followed by an empty line is refused. -/
theorem readReplyAux_bulk_bad (fuel : Nat) (p t : Bytes) (hp : p.length ≤ maxAlloc)
    (h1 : t.take 2 ≠ [CR, LF]) (h2 : t.head? ≠ some LF) :
    readReplyAux (fuel + 1) (36 :: FormatInt (p.length : Int) ++ CR :: LF :: (p ++ t)) =
      some (Reply.ret Value.null
        (some (if t = [] then GoError.EOF else GoError.errorString (lit "bad protocol"))),
        (ReadLine t).rest) := by
  have hm : p.length ≤ 2 ^ 48 := hp
  have e1 := ReadLine_header 36 (p.length : Int) (p ++ t) (by decide) (by omega) (by omega)
  have e2 := ParseInt_FormatInt (p.length : Int) (by omega) (by omega)
  have e4 : makesliceOK 1 (p.length : Int) = true := by
    simp only [makesliceOK, maxAlloc, decide_eq_true_eq]
    omega
  have e5 : ((p.length : Int) = -1) = False := by
    simp only [eq_iff_iff, iff_false]
    omega
  simp only [readReplyAux, e1, e2, e4, e5, if_false, Int.toNat_ofNat, ReadFull_append]
  by_cases ht : t = []
  · subst ht
    have e3 : ReadLine [] = { line := [], isPrefix := false, err := some GoError.EOF, rest := [] } := by
      decide
    simp [e3]
  · obtain ⟨e6, e7⟩ := ReadLine_nonempty t ht h1 h2
    simp [e6, e7, ht]

/-- A bulk header whose length is above the allocation limit makes `make` panic. -/
theorem readReplyAux_bulk_too_long (fuel n : Nat) (rest : Bytes) (hn : maxAlloc < n)
    (hn2 : n < 2 ^ 63) :
    readReplyAux (fuel + 1) (36 :: FormatInt (n : Int) ++ CR :: LF :: rest) =
      some (Reply.panic PanicKind.makesliceLen, rest) := by
  have hm : 2 ^ 48 < n := hn
  have e1 := ReadLine_header 36 (n : Int) rest (by decide) (by omega) (by omega)
  have e2 := ParseInt_FormatInt (n : Int) (by omega) (by omega)
  have e4 : makesliceOK 1 (n : Int) = false := by
    simp only [makesliceOK, maxAlloc, decide_eq_false_iff_not]
    omega
  have e5 : ((n : Int) = -1) = False := by
    simp only [eq_iff_iff, iff_false]
    omega
  simp only [readReplyAux, e1, e2, e4, e5, if_false]
  simp

theorem ReadReply_of_readReply (conn : Conn) (hmu : conn.mu = false) (v : Value)
    (err : Option GoError) (rest : Bytes) (h : readReply conn.input = (Reply.ret v err, rest)) :
    ReadReply conn = Outcome.ret (v, err) { conn with input := rest } := by
  simp only [ReadReply, withLock, hmu, Bool.false_eq_true, if_false, h]

theorem ToLower_ascii (U : Bytes → Bytes) (s : Bytes) (h : ∀ c ∈ s, c < 128) :
    ToLower U s = s.map (fun c => if 65 ≤ c ∧ c ≤ 90 then c + 32 else c) := by
  have hall : s.all (fun c => decide (c < 128)) = true := by
    simpa [List.all_eq_true] using h
  simp only [ToLower, hall, if_true]
  split_ifs with hany
  · rfl
  · symm
    have hno : ∀ c ∈ s, ¬ (65 ≤ c ∧ c ≤ 90) := by
      intro c hc hcc
      exact hany (List.any_eq_true.mpr ⟨c, hc, by simpa using hcc⟩)
    calc s.map (fun c => if 65 ≤ c ∧ c ≤ 90 then c + 32 else c)
        = s.map id := List.map_congr_left (fun c hc => by simp [hno c hc])
      _ = s := List.map_id s

theorem ReadRequest_of_readReply (U : Bytes → Bytes) (conn : Conn) (hmu : conn.mu = false)
    (s : Bytes) (args : List Value) (rest : Bytes)
    (h : readReply conn.input = (Reply.ret (Value.array (Value.str s :: args)) none, rest)) :
    ReadRequest U conn =
      Outcome.ret (Except.ok { Method := ToLower U s, Args := args })
        { conn with input := rest } := by
  simp only [ReadRequest, ReadReply_of_readReply conn hmu _ _ _ h]

/-- What `Handle` does on a fresh connection whose first request names a method with
no handler: it sends the one frame `-unsurport method:<m>\r\n`, invokes no handler,
closes the connection and returns, the bytes after the request left unread. -/
theorem Handle_no_handler (U : Bytes → Bytes) (s : Server) (fuel : Nat)
    (input output : Bytes) (m : Bytes) (args : List Value) (rest : Bytes)
    (h : readReply input = (Reply.ret (Value.array (Value.str m :: args)) none, rest))
    (hno : s.lookup (ToLower U m) = none) :
    Handle U s (fuel + 1) input output =
      some { conn := { input := rest, bw := [],
                       output := output ++ (lit "-unsurport method:" ++ ToLower U m ++ lit "\r\n"),
                       mu := false, closed := true },
             calls := [], ending := HandleEnd.returned } := by
  have hr := (ReadRequest_of_readReply U (NewConn input output) rfl m args rest h)
  have hl : lit "-unsurport method:" = lit "-" ++ lit "unsurport method:" := by decide
  simp only [Handle, handleLoop, hr, hno]
  simp [WriteError, withLock, NewConn, Conn.bwWrite, Conn.Flush, hl]

/-! ## The decoder is total -/

theorem indexByte_lt (d : Nat) : ∀ (l : Bytes) (i : Nat), indexByte d l = some i → i < l.length := by
  intro l i h
  obtain ⟨a, b, hab, hlen, _⟩ := indexByte_some d l i h
  rw [hab, ← hlen]
  simp

theorem ReadSlice_rest_le (d : Nat) (s : Bytes) : (ReadSlice d s).2.2.length ≤ s.length := by
  unfold ReadSlice
  split
  · simp
  · split_ifs <;> simp

theorem ReadLine_rest_le (s : Bytes) : (ReadLine s).rest.length ≤ s.length := by
  unfold ReadLine ReadSlice
  cases hidx : indexByte LF (s.take defaultBufSize) with
  | some i =>
    simp only
    split_ifs <;> simp
  | none =>
    simp only
    by_cases hlt : s.length < defaultBufSize
    · simp only [hlt, if_true]
      split_ifs <;> simp
    · simp only [hlt, if_false]
      have : defaultBufSize = 4096 := rfl
      split_ifs <;> simp only [List.length_cons, List.length_drop] <;> omega

theorem ReadLine_rest_lt (s : Bytes) (herr : (ReadLine s).err = none)
    (hp : (ReadLine s).isPrefix = false) : (ReadLine s).rest.length < s.length := by
  unfold ReadLine ReadSlice at herr hp ⊢
  cases hidx : indexByte LF (s.take defaultBufSize) with
  | some i =>
    have hi := indexByte_lt LF _ i hidx
    have hi2 : i < s.length := lt_of_lt_of_le hi (by simp)
    rw [hidx] at herr hp
    simp only
    split_ifs <;> simp only [List.length_drop] <;> omega
  | none =>
    rw [hidx] at herr hp
    simp only at herr hp ⊢
    by_cases hlt : s.length < defaultBufSize
    · simp only [hlt, if_true] at herr hp ⊢
      by_cases hs : s.length = 0
      · simp [hs] at herr
      · simp only [hs, if_false, List.length_nil]
        omega
    · simp only [hlt, if_false] at hp
      split_ifs at hp

theorem ReadFull_rest_le (n : Nat) (s : Bytes) : (ReadFull n s).2.2.length ≤ s.length := by
  unfold ReadFull
  split_ifs <;> simp

theorem readArray_total (fuel : Nat) (rd : Bytes → Option (Reply × Bytes))
    (hrd : ∀ s : Bytes, s.length < fuel → ∃ r, rd s = some r ∧ r.2.length ≤ s.length) :
    ∀ (n : Nat) (s : Bytes) (rts : List Value), s.length < fuel →
      ∃ r, readArray rd n s rts = some r ∧ r.2.length ≤ s.length := by
  intro n
  induction n with
  | zero => intro s rts _; exact ⟨_, rfl, le_refl _⟩
  | succ n ih =>
    intro s rts hs
    obtain ⟨⟨rep, s1⟩, h1, h2⟩ := hrd s hs
    simp only at h2
    cases rep with
    | panic k => exact ⟨(Reply.panic k, s1), by simp only [readArray, h1], h2⟩
    | ret v err =>
      cases err with
      | some e =>
        exact ⟨(Reply.ret Value.null (some e), s1), by simp only [readArray, h1], h2⟩
      | none =>
        obtain ⟨r, h3, h4⟩ := ih s1 (rts ++ [v]) (by omega)
        exact ⟨r, by simp only [readArray, h1, h3], by omega⟩

/-- With more fuel than unread bytes `readReplyAux` gives a result, and it never
leaves more bytes unread than it was given. -/
theorem readReplyAux_total : ∀ (fuel : Nat) (s : Bytes), s.length < fuel →
    ∃ r, readReplyAux fuel s = some r ∧ r.2.length ≤ s.length := by
  intro fuel
  induction fuel with
  | zero => intro s h; omega
  | succ fuel ih =>
    intro s hs
    have hle := ReadLine_rest_le s
    simp only [readReplyAux]
    cases herr : (ReadLine s).err with
    | some e => exact ⟨_, rfl, hle⟩
    | none =>
      simp only
      cases hp : (ReadLine s).isPrefix with
      | true =>
        simp only [if_true]
        exact ⟨_, rfl, hle⟩
      | false =>
        have hlt := ReadLine_rest_lt s herr hp
        simp only [Bool.false_eq_true, if_false]
        cases hline : (ReadLine s).line with
        | nil => exact ⟨_, rfl, hle⟩
        | cons tag body =>
          simp only
          split_ifs with h43 h45 h58 h36 h42
          · exact ⟨_, rfl, hle⟩
          · exact ⟨_, rfl, hle⟩
          · exact ⟨_, rfl, hle⟩
          · split
            · exact ⟨_, rfl, hle⟩
            · split_ifs
              · exact ⟨_, rfl, hle⟩
              · exact ⟨_, rfl, hle⟩
              · have hf := ReadFull_rest_le (Int.toNat ‹Int›) (ReadLine s).rest
                split
                · rename_i heq
                  rw [heq] at hf
                  exact ⟨_, rfl, le_trans hf hle⟩
                · rename_i heq
                  rw [heq] at hf
                  have hl2 := ReadLine_rest_le ‹Bytes›
                  simp only at hf
                  split
                  · exact ⟨_, rfl, by simp only; omega⟩
                  · split_ifs
                    · exact ⟨_, rfl, by simp only; omega⟩
                    · exact ⟨_, rfl, by simp only; omega⟩
          · split
            · exact ⟨_, rfl, hle⟩
            · split_ifs
              · exact ⟨_, rfl, hle⟩
              · exact ⟨_, rfl, hle⟩
              · obtain ⟨r, h1, h2⟩ := readArray_total fuel (readReplyAux fuel) ih
                  (Int.toNat ‹Int›) (ReadLine s).rest [] (by omega)
                exact ⟨r, h1, by omega⟩
          · exact ⟨_, rfl, hle⟩

/-- The bound `s.length + 1` used by `readReply` is never reached: `readReply` is the
result of `readReplyAux`. -/
theorem readReplyAux_fuel (s : Bytes) : readReplyAux (s.length + 1) s = some (readReply s) := by
  obtain ⟨r, h, _⟩ := readReplyAux_total (s.length + 1) s (by omega)
  simp [readReply, h]

theorem FormatInt_eq_decimalText (n : Int) : FormatInt n = decimalText n := by
  have hm : lit "-" = [45] := by decide
  have hz : lit "0" = [48] := by decide
  by_cases hneg : n < 0
  · have hne : n ≠ 0 := by omega
    have hnat : (-n).toNat = n.natAbs := by omega
    simp only [decimalText, FormatInt, hneg, if_true, hne, if_false, hm, hnat]
    rw [formatBits_eq_digits n.natAbs (by omega)]
    simp
  · by_cases hz0 : n = 0
    · subst hz0
      simp [decimalText, FormatInt, hz, formatBits_lt]
    · have hnat : n.toNat = n.natAbs := by omega
      simp only [decimalText, FormatInt, hneg, if_false, hz0, hnat]
      rw [formatBits_eq_digits n.natAbs (by omega)]
      simp

theorem WriteBulk_writeString (B : Bytes) (p : Payload) (w : Conn) (hw : w.mu = false)
    (h : ∀ c : Conn, writeBulk p c = Outcome.ret none (writeString B c)) :
    WriteBulk p w = Outcome.ret none (w.sent (bulkFrame B)) := by
  simp [WriteBulk, withLock, hw, h, writeString, writeLen, Conn.bwWrite, Conn.Flush, Conn.sent,
    bulkFrame]

theorem ReadLine_isPrefix_err (s : Bytes) (h : (ReadLine s).isPrefix = true) :
    (ReadLine s).err = none := by
  unfold ReadLine at h ⊢
  split at h
  · split_ifs at h ⊢ <;> rfl
  · split_ifs at h

/-- The header line decides the cases that read nothing more: a line that did not
fit the buffer and a line with an unknown first byte are refused. -/
theorem readReply_bad_header (s : Bytes) :
    ((ReadLine s).isPrefix = true →
        readReply s =
          (Reply.ret Value.null (some (GoError.errorString (lit "bad protocol"))),
            (ReadLine s).rest)) ∧
      (∀ tag body, (ReadLine s).err = none → (ReadLine s).isPrefix = false →
        (ReadLine s).line = tag :: body →
        tag ≠ 43 → tag ≠ 45 → tag ≠ 58 → tag ≠ 36 → tag ≠ 42 →
        readReply s =
          (Reply.ret Value.null (some (GoError.errorString (lit "bad protocol"))),
            (ReadLine s).rest)) := by
  refine ⟨?_, ?_⟩
  · intro hp
    apply readReply_of_aux
    simp only [readReplyAux, ReadLine_isPrefix_err s hp, hp, if_true]
  · intro tag body herr hp hline h43 h45 h58 h36 h42
    apply readReply_of_aux
    simp only [readReplyAux, herr, hp, hline, h43, h45, h58, h36, h42, if_false,
      Bool.false_eq_true]

/-- A bulk header with a length below -1 makes `make([]byte, n)` panic. -/
theorem readReplyAux_bulk_negative (fuel : Nat) (n : Int) (rest : Bytes) (hn : n < -1)
    (hlo : -(2 ^ 63) ≤ n) :
    readReplyAux (fuel + 1) (36 :: FormatInt n ++ CR :: LF :: rest) =
      some (Reply.panic PanicKind.makesliceLen, rest) := by
  have e1 := ReadLine_header 36 n rest (by decide) hlo (by omega)
  have e2 := ParseInt_FormatInt n hlo (by omega)
  have e4 : makesliceOK 1 n = false := by
    simp only [makesliceOK, decide_eq_false_iff_not]
    omega
  have e5 : (n = -1) = False := by
    simp only [eq_iff_iff, iff_false]
    omega
  simp only [readReplyAux, e1, e2, e4, e5, if_false]
  simp

/-- The header `$-1` is the null bulk string: nothing is read after the line. -/
theorem readReply_null_bulk (rest : Bytes) :
    readReply (lit "$-1\r\n" ++ rest) = (Reply.ret Value.null none, rest) := by
  have hh : lit "$-1\r\n" = 36 :: FormatInt (-1) ++ CR :: LF :: [] := by decide
  have e : lit "$-1\r\n" ++ rest = 36 :: FormatInt (-1) ++ CR :: LF :: rest := by
    rw [hh]; simp
  have e1 := ReadLine_header 36 (-1) rest (by decide) (by decide) (by decide)
  have e2 := ParseInt_FormatInt (-1) (by decide) (by decide)
  rw [e]
  apply readReply_of_aux
  simp only [readReplyAux, e1, e2]
  simp

/-! ## The result of the decoder does not depend on the fuel -/

theorem readArray_mono (rd rd1 : Bytes → Option (Reply × Bytes))
    (hrd : ∀ s r, rd s = some r → rd1 s = some r) :
    ∀ (n : Nat) (s : Bytes) (rts : List Value) (r : Reply × Bytes),
      readArray rd n s rts = some r → readArray rd1 n s rts = some r := by
  intro n
  induction n with
  | zero => intro s rts r h; simpa [readArray] using h
  | succ n ih =>
    intro s rts r h
    cases hrs : rd s with
    | none => simp [readArray, hrs] at h
    | some x =>
      have h1 := hrd s x hrs
      obtain ⟨rep, s1⟩ := x
      cases rep with
      | panic k =>
        simp only [readArray, hrs] at h
        simp only [readArray, h1]
        exact h
      | ret v err =>
        cases err with
        | some e =>
          simp only [readArray, hrs] at h
          simp only [readArray, h1]
          exact h
        | none =>
          simp only [readArray, hrs] at h
          simp only [readArray, h1]
          exact ih s1 _ r h

theorem readReplyAux_mono_step : ∀ (f : Nat) (s : Bytes) (r : Reply × Bytes),
    readReplyAux f s = some r → readReplyAux (f + 1) s = some r := by
  intro f
  induction f with
  | zero => intro s r h; simp [readReplyAux] at h
  | succ f ih =>
    intro s r h
    simp only [readReplyAux] at h ⊢
    cases herr : (ReadLine s).err with
    | some e => simpa only [herr] using h
    | none =>
      simp only [herr] at h ⊢
      cases hp : (ReadLine s).isPrefix with
      | true => simpa only [hp] using h
      | false =>
        simp only [hp, Bool.false_eq_true, if_false] at h ⊢
        cases hline : (ReadLine s).line with
        | nil => simpa only [hline] using h
        | cons tag body =>
          simp only [hline] at h ⊢
          by_cases h43 : tag = 43
          · simp only [h43, if_true] at h ⊢
            exact h
          · by_cases h45 : tag = 45
            · simp only [h43, h45, if_true, if_false] at h ⊢
              exact h
            · by_cases h58 : tag = 58
              · simp only [h43, h45, h58, if_true, if_false] at h ⊢
                exact h
              · by_cases h36 : tag = 36
                · simp only [h43, h45, h58, h36, if_true, if_false] at h ⊢
                  exact h
                · by_cases h42 : tag = 42
                  · simp only [h43, h45, h58, h36, h42, if_true, if_false] at h ⊢
                    cases hparse : ParseInt body with
                    | mk n err =>
                      cases err with
                      | some e =>
                        simp only [hparse] at h ⊢
                        exact h
                      | none =>
                        simp only [hparse] at h ⊢
                        by_cases hneg : n < 0
                        · simp only [hneg, if_true] at h ⊢
                          exact h
                        · simp only [hneg, if_false] at h ⊢
                          by_cases hmk : makesliceOK 16 n = false
                          · simp only [hmk, if_true] at h ⊢
                            exact h
                          · simp only [hmk, if_false] at h ⊢
                            exact readArray_mono _ _ ih _ _ _ _ h
                  · simp only [h43, h45, h58, h36, h42, if_false] at h ⊢
                    exact h

theorem readReplyAux_mono (f g : Nat) (hfg : f ≤ g) (s : Bytes) (r : Reply × Bytes)
    (h : readReplyAux f s = some r) : readReplyAux g s = some r := by
  induction g with
  | zero =>
    have : f = 0 := by omega
    subst this
    exact h
  | succ g ih =>
    by_cases hf : f = g + 1
    · subst hf
      exact h
    · exact readReplyAux_mono_step g s r (ih (by omega))

/-- With more fuel than unread bytes `readReplyAux` gives the result of `readReply`. -/
theorem readReplyAux_eq_readReply (f : Nat) (s : Bytes) (h : s.length < f) :
    readReplyAux f s = some (readReply s) :=
  readReplyAux_mono (s.length + 1) f (by omega) s _ (readReplyAux_fuel s)

theorem readReply_rest_le (s : Bytes) : (readReply s).2.length ≤ s.length := by
  obtain ⟨r, h1, h2⟩ := readReplyAux_total (s.length + 1) s (by omega)
  rw [readReplyAux_fuel] at h1
  cases h1
  exact h2

/-- The array loop over elements that decode with no error: it goes on, with the
values appended, on the bytes left unread. -/
theorem readArray_decodesTo (f n : Nat) : ∀ (vs : List Value) (s sk : Bytes) (rts : List Value),
    s.length < f → decodesTo s vs sk →
    readArray (readReplyAux f) (vs.length + n) s rts =
      readArray (readReplyAux f) n sk (rts ++ vs) := by
  intro vs
  induction vs with
  | nil =>
    intro s sk rts _ h
    simp only [decodesTo] at h
    subst h
    simp
  | cons v vs ih =>
    intro s sk rts hs h
    obtain ⟨s0, h1, h2⟩ := h
    have hle := readReply_rest_le s
    rw [h1] at hle
    have e : (v :: vs).length + n = (vs.length + n) + 1 := by
      simp only [List.length_cons]
      omega
    rw [e]
    simp only [readArray, readReplyAux_eq_readReply f s hs, h1]
    rw [ih s0 sk (rts ++ [v]) (lt_of_le_of_lt hle hs) h2]
    simp

/-- The array loop at an element whose decode fails: the error is returned with the
nil value. -/
theorem readArray_element_error (f n : Nat) (s s1 : Bytes) (rts : List Value) (v : Value)
    (e : GoError) (hs : s.length < f) (h : readReply s = (Reply.ret v (some e), s1)) :
    readArray (readReplyAux f) (n + 1) s rts = some (Reply.ret Value.null (some e), s1) := by
  simp only [readArray, readReplyAux_eq_readReply f s hs, h]

theorem decodesTo_length_le : ∀ (vs : List Value) (s sk : Bytes),
    decodesTo s vs sk → sk.length ≤ s.length := by
  intro vs
  induction vs with
  | nil =>
    intro s sk h
    simp only [decodesTo] at h
    subst h
    exact le_refl _
  | cons v vs ih =>
    intro s sk h
    obtain ⟨s0, h1, h2⟩ := h
    have hle := readReply_rest_le s
    rw [h1] at hle
    exact le_trans (ih s0 sk h2) hle

theorem readReply_array_error (n : Nat) (hn : n * 16 ≤ maxAlloc) (rest : Bytes)
    (vs : List Value) (hi : vs.length < n) (sk s1 : Bytes) (v : Value) (e : GoError)
    (hok : decodesTo rest vs sk) (herr : readReply sk = (Reply.ret v (some e), s1)) :
    readReply (lit "*" ++ Itoa (n : Int) ++ lit "\r\n" ++ rest) =
      (Reply.ret Value.null (some e), s1) := by
  have h : lit "*" = [42] := by decide
  have e1 : lit "*" ++ Itoa (n : Int) ++ lit "\r\n" ++ rest =
      42 :: (FormatInt (n : Int) ++ CR :: LF :: rest) := by
    simp [h, lit_crlf, Itoa]
  obtain ⟨m, hm⟩ : ∃ m, n = vs.length + (m + 1) := ⟨n - vs.length - 1, by omega⟩
  rw [e1]
  apply readReply_of_aux
  simp only [List.length_cons]
  refine (readReplyAux_array_header _ n rest hn).trans ?_
  have hlen : rest.length < (FormatInt (n : Int) ++ CR :: LF :: rest).length + 1 := by
    simp only [List.length_append, List.length_cons]
    omega
  have hsk : sk.length < (FormatInt (n : Int) ++ CR :: LF :: rest).length + 1 :=
    lt_of_le_of_lt (decodesTo_length_le vs rest sk hok) hlen
  generalize (FormatInt (n : Int) ++ CR :: LF :: rest).length + 1 = F at hlen hsk ⊢
  subst hm
  rw [readArray_decodesTo F (m + 1) vs rest sk [] hlen hok,
    readArray_element_error F m sk s1 _ v e hsk herr]

theorem ReadLine_lf (rest : Bytes) :
    ReadLine (LF :: rest) = { line := [], isPrefix := false, err := none, rest := rest } := by
  have hidx : indexByte LF ((LF :: rest).take defaultBufSize) = some 0 := by
    rw [show defaultBufSize = 4095 + 1 from rfl, List.take_succ_cons]
    simp [indexByte]
  simp only [ReadLine, ReadSlice, hidx]
  simp [dropEOL]

/-- An empty header line, ended by CR LF or by LF alone, makes `line[0]` panic. -/
theorem readReply_empty_line (rest : Bytes) :
    readReply (lit "\r\n" ++ rest) = (Reply.panic PanicKind.indexOutOfRange, rest) ∧
      readReply (lit "\n" ++ rest) = (Reply.panic PanicKind.indexOutOfRange, rest) := by
  have h1 : ReadLine (CR :: LF :: rest) =
      { line := [], isPrefix := false, err := none, rest := rest } := by
    have := ReadLine_crlf [] rest (by simp) (by simp [defaultBufSize])
    simpa using this
  have h2 := ReadLine_lf rest
  have e1 : lit "\r\n" ++ rest = CR :: LF :: rest := by rw [lit_crlf]; rfl
  have e2 : lit "\n" ++ rest = LF :: rest := by
    rw [show lit "\n" = [LF] by decide]; rfl
  refine ⟨?_, ?_⟩
  · rw [e1]
    apply readReply_of_aux
    simp only [readReplyAux, h1]
    simp
  · rw [e2]
    apply readReply_of_aux
    simp only [readReplyAux, h2]
    simp

theorem readReply_bulkFrame (s : Bytes) (hs : s.length ≤ maxAlloc) :
    readReply (bulkFrame s) = (Reply.ret (Value.str s) none, []) := by
  have h := readReply_bulk s [] hs
  rw [List.append_nil] at h
  exact h

theorem readReply_status_long (t : Bytes) (hLF : LF ∉ t) (hlen : t.length = 4094) :
    readReply (lit "+" ++ t ++ lit "\r\n") =
      (Reply.ret Value.null (some (GoError.errorString (lit "bad protocol"))), [CR, LF]) := by
  rw [status_frame_eq "+" 43 (by decide)]
  exact readReply_long_line 43 t [] (by decide) hLF hlen

theorem bulkFrame_head (t : Bytes) : (bulkFrame t).head? = some 36 := by
  have h : lit "$" = [36] := by decide
  simp [bulkFrame, h]

/-! ## Method names -/

/-- On a string of ASCII bytes `strings.ToLower` gives a string that it leaves
unchanged; so it does on every string when the Unicode branch does. -/
theorem ToLower_idem (U : Bytes → Bytes)
    (hU : ∀ s : Bytes, s.all (fun c => decide (c < 128)) = false → ToLower U (U s) = U s)
    (s : Bytes) : ToLower U (ToLower U s) = ToLower U s := by
  by_cases hall : s.all (fun c => decide (c < 128)) = true
  · have hs : ∀ c ∈ s, c < 128 := by simpa [List.all_eq_true] using hall
    rw [ToLower_ascii U s hs]
    have hs1 : ∀ c ∈ s.map (fun c => if 65 ≤ c ∧ c ≤ 90 then c + 32 else c), c < 128 := by
      intro c hc
      simp only [List.mem_map] at hc
      obtain ⟨a, ha, rfl⟩ := hc
      have := hs a ha
      split_ifs <;> omega
    rw [ToLower_ascii U _ hs1, List.map_map]
    apply List.map_congr_left
    intro a _
    simp only [Function.comp]
    split_ifs <;> omega
  · have hf : s.all (fun c => decide (c < 128)) = false := by simpa using hall
    have e : ToLower U s = U s := by simp [ToLower, hf]
    rw [e]
    exact hU s hf

/-- The method of a request that `ReadRequest` returns is a lowercased string. -/
theorem ReadRequest_method (U : Bytes → Bytes) (conn c1 : Conn) (req : Request)
    (h : ReadRequest U conn = Outcome.ret (Except.ok req) c1) :
    ∃ m, req.Method = ToLower U m := by
  unfold ReadRequest at h
  cases hr : ReadReply conn with
  | panic k c => rw [hr] at h; simp at h
  | blocked c => rw [hr] at h; simp at h
  | ret a c =>
    rw [hr] at h
    obtain ⟨v, err⟩ := a
    cases err with
    | some e => simp at h
    | none =>
      cases v with
      | null => simp at h
      | str s => simp at h
      | int64 n => simp at h
      | error m => simp at h
      | array xs =>
        cases xs with
        | nil => simp at h
        | cons x xs =>
          cases x with
          | str m =>
            simp only [Outcome.ret.injEq, Except.ok.injEq] at h
            exact ⟨m, by rw [← h.1]⟩
          | null => simp at h
          | int64 n => simp at h
          | error m => simp at h
          | array ys => simp at h

/-- One iteration of the loop of `Handle` on a request whose method has a handler:
that handler, and no other, is invoked on the request. -/
theorem handleLoop_dispatch (U : Bytes → Bytes) (s : Server) (fuel : Nat) (conn c1 : Conn)
    (calls : List Request) (req : Request) (h : HandlerFunc)
    (hreq : ReadRequest U conn = Outcome.ret (Except.ok req) c1)
    (hh : s.lookup req.Method = some h) :
    (∀ u c2, h c1 req = Outcome.ret u c2 →
        handleLoop U s (fuel + 1) conn calls = handleLoop U s fuel c2 (calls ++ [req])) ∧
      (∀ k c2, h c1 req = Outcome.panic k c2 →
        handleLoop U s (fuel + 1) conn calls =
          some { conn := c2, calls := calls ++ [req], ending := HandleEnd.panicked k }) ∧
      (∀ c2, h c1 req = Outcome.blocked c2 →
        handleLoop U s (fuel + 1) conn calls =
          some { conn := c2, calls := calls ++ [req], ending := HandleEnd.blocked }) := by
  refine ⟨?_, ?_, ?_⟩
  · intro u c2 hc
    simp only [handleLoop, hreq, hh, hc]
  · intro k c2 hc
    simp only [handleLoop, hreq, hh, hc]
  · intro c2 hc
    simp only [handleLoop, hreq, hh, hc]

/-- Every handler invocation of the loop of `Handle` is for a request whose method
is a lowercased string with a handler in the map. -/
theorem handleLoop_calls (U : Bytes → Bytes) (s : Server) (P : Request → Prop)
    (hP : ∀ (conn c1 : Conn) (req : Request) (h : HandlerFunc),
      ReadRequest U conn = Outcome.ret (Except.ok req) c1 → s.lookup req.Method = some h →
      P req) :
    ∀ (fuel : Nat) (conn : Conn) (calls : List Request) (r : HandleResult),
      handleLoop U s fuel conn calls = some r → (∀ q ∈ calls, P q) → ∀ q ∈ r.calls, P q := by
  intro fuel
  induction fuel with
  | zero => intro conn calls r h; simp [handleLoop] at h
  | succ fuel ih =>
    intro conn calls r h hcalls
    simp only [handleLoop] at h
    cases hreq : ReadRequest U conn with
    | panic k c1 =>
      simp only [hreq, Option.some.injEq] at h
      subst h
      exact hcalls
    | blocked c1 =>
      simp only [hreq, Option.some.injEq] at h
      subst h
      exact hcalls
    | ret a c1 =>
      cases a with
      | error e =>
        simp only [hreq, Option.some.injEq] at h
        subst h
        exact hcalls
      | ok req =>
        simp only [hreq] at h
        cases hh : s.lookup req.Method with
        | none =>
          simp only [hh] at h
          cases hw : WriteError (lit "unsurport method:" ++ req.Method) c1 with
          | ret u c2 =>
            simp only [hw, Option.some.injEq] at h
            subst h
            exact hcalls
          | panic k c2 =>
            simp only [hw, Option.some.injEq] at h
            subst h
            exact hcalls
          | blocked c2 =>
            simp only [hw, Option.some.injEq] at h
            subst h
            exact hcalls
        | some hd =>
          simp only [hh] at h
          have hnew : ∀ q ∈ calls ++ [req], P q := by
            intro q hq
            simp only [List.mem_append, List.mem_singleton] at hq
            rcases hq with hq | hq
            · exact hcalls q hq
            · subst hq
              exact hP conn c1 q hd hreq hh
          cases hc : hd c1 req with
          | ret u c2 =>
            simp only [hc] at h
            exact ih c2 _ r h hnew
          | panic k c2 =>
            simp only [hc, Option.some.injEq] at h
            subst h
            exact hnew
          | blocked c2 =>
            simp only [hc, Option.some.injEq] at h
            subst h
            exact hnew

theorem Handle_calls (U : Bytes → Bytes) (s : Server) (P : Request → Prop)
    (hP : ∀ (conn c1 : Conn) (req : Request) (h : HandlerFunc),
      ReadRequest U conn = Outcome.ret (Except.ok req) c1 → s.lookup req.Method = some h →
      P req)
    (fuel : Nat) (input output : Bytes) (r : HandleResult)
    (h : Handle U s fuel input output = some r) : ∀ q ∈ r.calls, P q := by
  unfold Handle at h
  cases hl : handleLoop U s fuel (NewConn input output) [] with
  | none => simp [hl] at h
  | some r0 =>
    have h0 := handleLoop_calls U s P hP fuel _ [] r0 hl (by simp)
    simp only [hl] at h
    split at h <;> simp only [Option.some.injEq] at h <;> subst h <;> exact h0

/-- The map after a successful `AddHandler(m, f)`: `m` is bound to `f` and every other
name to what it was bound to. -/
theorem AddHandler_lookup (m : Bytes) (f : HandlerFunc) (s0 s : Server)
    (h : AddHandler m f s0 = Outcome.ret none s) :
    ∀ k, s.lookup k = if k = m then some f else s0.lookup k := by
  obtain ⟨mu, handlers⟩ := s0
  unfold AddHandler at h
  cases mu with
  | true => simp at h
  | false =>
    cases handlers with
    | none =>
      simp only [Server.lookup, Bool.false_eq_true, if_false, Outcome.ret.injEq, true_and] at h
      subst h
      intro k
      simp [Server.lookup, HandlerMap.set]
    | some hm =>
      simp only [Server.lookup, Bool.false_eq_true, if_false] at h
      cases hl : hm m with
      | some g => simp [hl] at h
      | none =>
        simp only [hl, Outcome.ret.injEq, true_and] at h
        subst h
        intro k
        simp [Server.lookup, HandlerMap.set]

theorem ReadRequest_ping (U : Bytes → Bytes) (output : Bytes) :
    ∀ frame ∈ [lit "*1\r\n$4\r\nPING\r\n", lit "*1\r\n$4\r\nPing\r\n", lit "*1\r\n$4\r\nping\r\n"],
      ReadRequest U (NewConn frame output) =
        Outcome.ret (Except.ok { Method := lit "ping", Args := [] }) (NewConn [] output) := by
  intro frame hf
  simp only [List.mem_cons, List.mem_singleton, List.not_mem_nil, or_false] at hf
  rcases hf with hf | hf | hf <;> subst hf
  · have h := ReadRequest_of_readReply U (NewConn (lit "*1\r\n$4\r\nPING\r\n") output) rfl
      (lit "PING") [] [] (by rfl)
    rw [ToLower_ascii U (lit "PING") (by decide)] at h
    exact h
  · have h := ReadRequest_of_readReply U (NewConn (lit "*1\r\n$4\r\nPing\r\n") output) rfl
      (lit "Ping") [] [] (by rfl)
    rw [ToLower_ascii U (lit "Ping") (by decide)] at h
    exact h
  · have h := ReadRequest_of_readReply U (NewConn (lit "*1\r\n$4\r\nping\r\n") output) rfl
      (lit "ping") [] [] (by rfl)
    rw [ToLower_ascii U (lit "ping") (by decide)] at h
    exact h

/-! ## The claims -/

/-- C1. Bulk round trip, binary-safe.  For every byte string `s` (any bytes, also CR
and LF, also the empty string; a Go string has at most `maxAlloc` bytes),
`WriteBulk(s)`, with `s` a string or a byte slice, on a connection whose lock is free
returns nil and sends exactly the frame `$<len>\r\n<s>\r\n`, and `ReadReply` on a
connection whose unread input is exactly that frame returns the string `s` with a nil
error and leaves no byte unread. -/
theorem C1_bulk_round_trip (s : Bytes) (hs : s.length ≤ maxAlloc) (w r : Conn)
    (hw : w.mu = false) (hr : r.mu = false) :
    WriteBulk (Payload.string s) w =
        Outcome.ret none { w with
          bw := [],
          output := w.output ++
            (w.bw ++ (lit "$" ++ Itoa (s.length : Int) ++ lit "\r\n" ++ (s ++ lit "\r\n"))) } ∧
      WriteBulk (Payload.bytes s) w = WriteBulk (Payload.string s) w ∧
      ReadReply { r with
          input := lit "$" ++ Itoa (s.length : Int) ++ lit "\r\n" ++ (s ++ lit "\r\n") } =
        Outcome.ret (Value.str s, none) { r with input := [] } := by
  refine ⟨?_, ?_, ?_⟩
  · simp [WriteBulk, withLock, hw, writeBulk, writeString, writeLen, Conn.bwWrite, Conn.Flush]
  · simp [WriteBulk, withLock, hw, writeBulk]
  · have h := readReply_bulk s [] hs
    rw [List.append_nil] at h
    simp only [ReadReply, withLock, hr, Bool.false_eq_true, if_false, h]

/-- C1, at the four bytes `a`, CR, LF, `b`. -/
theorem C1_bulk_round_trip_witness :
    (lit "a\r\nb").length ≤ maxAlloc ∧ (NewConn [] []).mu = false ∧
      ReadReply { NewConn [] [] with input := lit "$4\r\na\r\nb\r\n" } =
        Outcome.ret (Value.str (lit "a\r\nb"), none) (NewConn [] []) :=
  ⟨by decide, rfl,
    (C1_bulk_round_trip (lit "a\r\nb") (by decide) (NewConn [] []) (NewConn [] []) rfl rfl).2.2⟩

/-- C2. Array round trip.  For every list `L` of byte strings (a Go slice of `L.length`
interface values and each Go string fit below `maxAlloc`), `WriteReply(L)` on a
connection whose lock is free returns nil and sends `*<len>\r\n` followed by the bulk
frames of the strings in order, and `ReadReply` on exactly those bytes returns, with a
nil error, the array of the strings of `L` in the same order, nothing left unread.
That array is never the null value: `*0\r\n` is read as the empty array, whereas
`*-1\r\n` is read as null. -/
theorem C2_array_round_trip (L : List Bytes) (hL : L.length * 16 ≤ maxAlloc)
    (hs : ∀ s ∈ L, s.length ≤ maxAlloc) (w r : Conn) (hw : w.mu = false) (hr : r.mu = false) :
    WriteReply (L.map Payload.string) w =
        Outcome.ret none { w with
          bw := [],
          output := w.output ++
            (w.bw ++ (lit "*" ++ Itoa (L.length : Int) ++ lit "\r\n" ++ bulkFrames L)) } ∧
      ReadReply { r with input := lit "*" ++ Itoa (L.length : Int) ++ lit "\r\n" ++ bulkFrames L } =
        Outcome.ret (Value.array (L.map Value.str), none) { r with input := [] } ∧
      Value.array (L.map Value.str) ≠ Value.null ∧
      ReadReply { r with input := lit "*0\r\n" } =
        Outcome.ret (Value.array [], none) { r with input := [] } ∧
      ReadReply { r with input := lit "*-1\r\n" } =
        Outcome.ret (Value.null, none) { r with input := [] } := by
  refine ⟨?_, ?_, ?_, ?_, ?_⟩
  · simp only [WriteReply, withLock, hw, Bool.false_eq_true, if_false, List.length_map,
      writeReplyLoop_strings]
    simp [writeLen, Conn.bwWrite, Conn.Flush]
  · have h := readReply_array L [] hL hs
    rw [List.append_nil] at h
    simp only [ReadReply, withLock, hr, Bool.false_eq_true, if_false, h]
  · simp
  · have h : readReply (lit "*0\r\n") = (Reply.ret (Value.array []) none, []) := by rfl
    simp only [ReadReply, withLock, hr, Bool.false_eq_true, if_false, h]
  · have h : readReply (lit "*-1\r\n") = (Reply.ret Value.null none, []) := by rfl
    simp only [ReadReply, withLock, hr, Bool.false_eq_true, if_false, h]

/-- C2, at the list of the two strings `foo` and `bar`. -/
theorem C2_array_round_trip_witness :
    ReadReply { NewConn [] [] with input := lit "*2\r\n$3\r\nfoo\r\n$3\r\nbar\r\n" } =
      Outcome.ret (Value.array [Value.str (lit "foo"), Value.str (lit "bar")], none)
        (NewConn [] []) :=
  (C2_array_round_trip [lit "foo", lit "bar"] (by decide) (by decide) (NewConn [] [])
    (NewConn [] []) rfl rfl).2.1

/-- C3. Integer round trip.  For every 64-bit signed integer `n` (zero, negative, the
minimum and the maximum included), `WriteInteger(n)` on a connection whose lock is
free returns nil and sends exactly `:`, the base-10 text of `n` and CR LF, where the
text is a minus sign for a negative `n` followed by the decimal digits of the
magnitude; and `ReadReply` on exactly those bytes returns the integer `n` with a nil
error, nothing left unread. -/
theorem C3_integer_round_trip (n : Int) (hlo : -(2 ^ 63) ≤ n) (hhi : n < 2 ^ 63) (w r : Conn)
    (hw : w.mu = false) (hr : r.mu = false) :
    WriteInteger n w =
        Outcome.ret none { w with
          bw := [],
          output := w.output ++ (w.bw ++ (lit ":" ++ Itoa n ++ lit "\r\n")) } ∧
      Itoa n = (if n < 0 then lit "-" else []) ++
        (if n = 0 then lit "0" else ((Nat.digits 10 n.natAbs).reverse).map (fun d => 48 + d)) ∧
      ReadReply { r with input := lit ":" ++ Itoa n ++ lit "\r\n" } =
        Outcome.ret (Value.int64 n, none) { r with input := [] } := by
  refine ⟨?_, ?_, ?_⟩
  · simp [WriteInteger, withLock, hw, Conn.bwWrite, Conn.Flush]
  · have hm : lit "-" = [45] := by decide
    have hz : lit "0" = [48] := by decide
    by_cases hneg : n < 0
    · have hne : n ≠ 0 := by omega
      have hnat : (-n).toNat = n.natAbs := by omega
      simp only [Itoa, FormatInt, hneg, if_true, hne, if_false, hm, hnat]
      rw [formatBits_eq_digits n.natAbs (by omega)]
      simp
    · by_cases hz0 : n = 0
      · subst hz0
        simp [Itoa, FormatInt, hz, formatBits_lt]
      · have hnat : n.toNat = n.natAbs := by omega
        simp only [Itoa, FormatInt, hneg, if_false, hz0, hnat]
        rw [formatBits_eq_digits n.natAbs (by omega)]
        simp
  · have h := readReply_integer n [] hlo hhi
    rw [List.append_nil] at h
    simp only [ReadReply, withLock, hr, Bool.false_eq_true, if_false, h]

/-- C3, at the minimum 64-bit integer. -/
theorem C3_integer_round_trip_witness :
    ReadReply { NewConn [] [] with
        input := lit ":" ++ Itoa (-9223372036854775808) ++ lit "\r\n" } =
      Outcome.ret (Value.int64 (-9223372036854775808), none) { NewConn [] [] with input := [] } :=
  (C3_integer_round_trip (-9223372036854775808) (by decide) (by decide) (NewConn [] [])
    (NewConn [] []) rfl rfl).2.2

/-- C4, as stated, fails: a status text of 4094 bytes `a`, free of CR and LF, is written
as a line that does not fit the 4096-byte buffer of the reader, and `ReadReply` on the
frame returns the error `bad protocol` and no string. -/
theorem C4_status_long_counterexample :
    CR ∉ List.replicate 4094 97 ∧ LF ∉ List.replicate 4094 97 ∧
      ReadReply { NewConn [] [] with input := lit "+" ++ List.replicate 4094 97 ++ lit "\r\n" } =
        Outcome.ret (Value.null, some (GoError.errorString (lit "bad protocol")))
          { NewConn [] [] with input := [CR, LF] } :=
  ⟨fun h => absurd (List.eq_of_mem_replicate h) (by decide),
    fun h => absurd (List.eq_of_mem_replicate h) (by decide),
    ReadReply_long_line "+" 43 (by decide) (by decide) (List.replicate 4094 97)
      (fun h => absurd (List.eq_of_mem_replicate h) (by decide)) (List.length_replicate _ _)⟩

/-- C4, amended.  For every status text `s` of at most 4093 bytes that contains no CR
and no LF byte, `WriteStatus(s)` on a connection whose lock is free returns nil and
sends exactly `+`, `s`, CR LF, and `ReadReply` on exactly those bytes returns the
string `s` with a nil error, nothing left unread. -/
theorem C4_status_round_trip (s : Bytes) (_hCR : CR ∉ s) (hLF : LF ∉ s) (hlen : s.length ≤ 4093)
    (w r : Conn) (hw : w.mu = false) (hr : r.mu = false) :
    WriteStatus s w =
        Outcome.ret none { w with
          bw := [],
          output := w.output ++ (w.bw ++ (lit "+" ++ s ++ lit "\r\n")) } ∧
      ReadReply { r with input := lit "+" ++ s ++ lit "\r\n" } =
        Outcome.ret (Value.str s, none) { r with input := [] } := by
  refine ⟨?_, ?_⟩
  · simp [WriteStatus, withLock, hw, Conn.bwWrite, Conn.Flush]
  · have h := readReply_status s [] hLF hlen
    rw [List.append_nil] at h
    simp only [ReadReply, withLock, hr, Bool.false_eq_true, if_false, h]

/-- C4 amended, at the status text `OK`. -/
theorem C4_status_round_trip_witness :
    CR ∉ lit "OK" ∧ LF ∉ lit "OK" ∧ (lit "OK").length ≤ 4093 ∧
      ReadReply { NewConn [] [] with input := lit "+" ++ lit "OK" ++ lit "\r\n" } =
        Outcome.ret (Value.str (lit "OK"), none) { NewConn [] [] with input := [] } :=
  ⟨by decide, by decide, by decide,
    (C4_status_round_trip (lit "OK") (by decide) (by decide) (by decide) (NewConn [] [])
      (NewConn [] []) rfl rfl).2⟩

/-- C5, as stated, fails: an error text of 4094 bytes `a`, free of CR and LF, gives a
frame whose line does not fit the 4096-byte buffer of the reader, and `ReadReply` on
it returns the decode error `bad protocol`, not an Error value. -/
theorem C5_error_long_counterexample :
    CR ∉ List.replicate 4094 97 ∧ LF ∉ List.replicate 4094 97 ∧
      ReadReply { NewConn [] [] with input := lit "-" ++ List.replicate 4094 97 ++ lit "\r\n" } =
        Outcome.ret (Value.null, some (GoError.errorString (lit "bad protocol")))
          { NewConn [] [] with input := [CR, LF] } :=
  ⟨fun h => absurd (List.eq_of_mem_replicate h) (by decide),
    fun h => absurd (List.eq_of_mem_replicate h) (by decide),
    ReadReply_long_line "-" 45 (by decide) (by decide) (List.replicate 4094 97)
      (fun h => absurd (List.eq_of_mem_replicate h) (by decide)) (List.length_replicate _ _)⟩

/-- C5, amended.  An Error frame is a decoded value, not a decode failure: for every
text `t` of at most 4093 bytes without CR or LF, `WriteError` for an error of message
`t` sends exactly `-`, `t`, CR LF, and `ReadReply` on those bytes returns a nil decode
error together with the Error value of message `t`.  Consequently an Error frame that
is an element of an array does not abort the array decode: the loop of the array case
appends the Error value and goes on, and `*1\r\n` followed by the frame is read as the
array of that one Error value. -/
theorem C5_error_frame_is_value (t : Bytes) (_hCR : CR ∉ t) (hLF : LF ∉ t)
    (hlen : t.length ≤ 4093) (w r : Conn) (hw : w.mu = false) (hr : r.mu = false) :
    WriteError t w =
        Outcome.ret none { w with
          bw := [],
          output := w.output ++ (w.bw ++ (lit "-" ++ t ++ lit "\r\n")) } ∧
      ReadReply { r with input := lit "-" ++ t ++ lit "\r\n" } =
        Outcome.ret (Value.error t, none) { r with input := [] } ∧
      (∀ (fuel n : Nat) (rts : List Value) (rest : Bytes),
        readArray (readReplyAux (fuel + 1)) (n + 1) (lit "-" ++ t ++ lit "\r\n" ++ rest) rts =
          readArray (readReplyAux (fuel + 1)) n rest (rts ++ [Value.error t])) ∧
      ReadReply { r with input := lit "*1\r\n" ++ (lit "-" ++ t ++ lit "\r\n") } =
        Outcome.ret (Value.array [Value.error t], none) { r with input := [] } := by
  refine ⟨?_, ?_, ?_, ?_⟩
  · simp [WriteError, withLock, hw, Conn.bwWrite, Conn.Flush]
  · have h := readReply_error t [] hLF hlen
    rw [List.append_nil] at h
    simp only [ReadReply, withLock, hr, Bool.false_eq_true, if_false, h]
  · intro fuel n rts rest
    exact readArray_error_frame fuel n t rest rts hLF hlen
  · have h := readReply_array_of_error t [] hLF hlen
    rw [List.append_nil] at h
    simp only [ReadReply, withLock, hr, Bool.false_eq_true, if_false, h]

/-- C5 amended, at the error text `ERR x`. -/
theorem C5_error_frame_is_value_witness :
    CR ∉ lit "ERR x" ∧ LF ∉ lit "ERR x" ∧ (lit "ERR x").length ≤ 4093 ∧
      ReadReply { NewConn [] [] with input := lit "-" ++ lit "ERR x" ++ lit "\r\n" } =
        Outcome.ret (Value.error (lit "ERR x"), none) { NewConn [] [] with input := [] } :=
  ⟨by decide, by decide, by decide,
    (C5_error_frame_is_value (lit "ERR x") (by decide) (by decide) (by decide) (NewConn [] [])
      (NewConn [] []) rfl rfl).2.1⟩

/-- C6, as stated, fails.  The payload `abc` followed by a lone LF, which does not
begin with CR LF, is accepted: `readReply` returns the string `abc` with a nil error.
And for a declared length above the allocation limit of the runtime (here
`2 ^ 48 + 1`, with a payload of that many bytes and the trailing byte `x`) the call
panics in `make` instead of returning an error. -/
theorem C6_lone_LF_counterexample :
    (lit "\n").take 2 ≠ [CR, LF] ∧
      readReply (lit "$3\r\n" ++ lit "abc" ++ lit "\n") =
        (Reply.ret (Value.str (lit "abc")) none, []) ∧
      (readReply (lit "$" ++ Itoa ((281474976710657 : Nat) : Int) ++ lit "\r\n" ++
        (List.replicate 281474976710657 0 ++ lit "x"))).1 =
        Reply.panic PanicKind.makesliceLen := by
  refine ⟨by decide, by rfl, ?_⟩
  have h : lit "$" = [36] := by decide
  have e : ∀ rest : Bytes, lit "$" ++ Itoa ((281474976710657 : Nat) : Int) ++ lit "\r\n" ++ rest =
      36 :: FormatInt ((281474976710657 : Nat) : Int) ++ CR :: LF :: rest := by
    intro rest
    simp only [h, lit_crlf, Itoa]
    simp
  rw [e, readReply_of_aux _ _
    (readReplyAux_bulk_too_long _ 281474976710657 _ (by decide) (by decide))]

/-- C6, amended.  Bulk terminator strictness: for every declared length `n` from 0 to
the allocation limit `2 ^ 48`, every payload `p` of exactly `n` bytes and every
trailing byte sequence `t` that begins neither with CR LF nor with LF, `readReply` on
`$n\r\n`, `p`, `t` returns an error and the nil value: `io.EOF` when `t` is empty,
`bad protocol` otherwise. -/
theorem C6_bulk_terminator (p t : Bytes) (hp : p.length ≤ maxAlloc)
    (hcrlf : t.take 2 ≠ [CR, LF]) (hlf : t.head? ≠ some LF) :
    (readReply (lit "$" ++ Itoa (p.length : Int) ++ lit "\r\n" ++ p ++ t)).1 =
      Reply.ret Value.null
        (some (if t = [] then GoError.EOF else GoError.errorString (lit "bad protocol"))) := by
  have h : lit "$" = [36] := by decide
  have e : lit "$" ++ Itoa (p.length : Int) ++ lit "\r\n" ++ p ++ t =
      36 :: FormatInt (p.length : Int) ++ CR :: LF :: (p ++ t) := by
    simp [h, lit_crlf, Itoa]
  rw [e, readReply_of_aux _ _ (readReplyAux_bulk_bad _ p t hp hcrlf hlf)]

/-- C6 amended, at the payload `abc` followed by `x`, CR, LF. -/
theorem C6_bulk_terminator_witness :
    (readReply (lit "$" ++ Itoa ((lit "abc").length : Int) ++ lit "\r\n" ++ lit "abc" ++
        lit "x\r\n")).1 =
      Reply.ret Value.null
        (some (if lit "x\r\n" = [] then GoError.EOF
          else GoError.errorString (lit "bad protocol"))) :=
  C6_bulk_terminator (lit "abc") (lit "x\r\n") (by decide) (by decide) (by decide)

/-- C7. Request parsing.  Whenever `readReply` returns, with a nil error, an array whose
first element is a string `s` followed by the elements `args`, `ReadRequest` (on a
connection whose lock is free) returns with no error the request whose `Method` is
`strings.ToLower(s)` and whose `Args` are exactly `args`, in order and unchanged; for
a method name of ASCII bytes `ToLower` maps `A`..`Z` to `a`..`z` and leaves the other
bytes alone. -/
theorem C7_request_parsing (U : Bytes → Bytes) (conn : Conn) (hmu : conn.mu = false)
    (s : Bytes) (args : List Value) (rest : Bytes)
    (h : readReply conn.input = (Reply.ret (Value.array (Value.str s :: args)) none, rest)) :
    ReadRequest U conn =
        Outcome.ret (Except.ok { Method := ToLower U s, Args := args })
          { conn with input := rest } ∧
      ((∀ c ∈ s, c < 128) →
        ToLower U s = s.map (fun c => if 65 ≤ c ∧ c ≤ 90 then c + 32 else c)) := by
  refine ⟨?_, ToLower_ascii U s⟩
  simp only [ReadRequest, ReadReply_of_readReply conn hmu _ _ _ h]

/-- C7, at the request `*1\r\n$4\r\nPING\r\n`: the method is `ping`, with no argument. -/
theorem C7_request_parsing_witness :
    ReadRequest id (NewConn (lit "*1\r\n$4\r\nPING\r\n") []) =
      Outcome.ret (Except.ok { Method := lit "ping", Args := [] }) (NewConn [] []) :=
  (C7_request_parsing id (NewConn (lit "*1\r\n$4\r\nPING\r\n") []) rfl (lit "PING") [] []
    (by rfl)).1

/-- C8. Request-format errors.  On a connection whose lock is free: when `readReply`
fails with error `e`, `ReadRequest` returns `e` and no request; when `readReply`
succeeds with the value `v`, `ReadRequest` returns the error `bad request` and no
request if and only if `v` is not an array, or is the empty array, or has a first
element that is not a string.  In particular a top-level null, string (status or
bulk), integer or Error value is always refused. -/
theorem C8_request_format_errors (U : Bytes → Bytes) (conn : Conn) (hmu : conn.mu = false)
    (v : Value) (rest : Bytes) :
    (∀ e, readReply conn.input = (Reply.ret v (some e), rest) →
        ReadRequest U conn = Outcome.ret (Except.error e) { conn with input := rest }) ∧
      (readReply conn.input = (Reply.ret v none, rest) →
        (ReadRequest U conn =
            Outcome.ret (Except.error (GoError.errorString (lit "bad request")))
              { conn with input := rest } ↔
          ((∀ xs, v ≠ Value.array xs) ∨ v = Value.array [] ∨
            ∃ x xs, v = Value.array (x :: xs) ∧ ∀ s, x ≠ Value.str s))) ∧
      (readReply conn.input = (Reply.ret v none, rest) →
        (v = Value.null ∨ (∃ s, v = Value.str s) ∨ (∃ n, v = Value.int64 n) ∨
          (∃ m, v = Value.error m)) →
        ReadRequest U conn =
          Outcome.ret (Except.error (GoError.errorString (lit "bad request")))
            { conn with input := rest }) := by
  refine ⟨?_, ?_, ?_⟩
  · intro e h
    simp only [ReadRequest, ReadReply_of_readReply conn hmu _ _ _ h]
  · intro h
    simp only [ReadRequest, ReadReply_of_readReply conn hmu _ _ _ h]
    cases v with
    | null => simp
    | str s => simp
    | int64 n => simp
    | error m => simp
    | array xs =>
      cases xs with
      | nil => simp
      | cons x xs =>
        cases x <;> simp
  · intro h hv
    simp only [ReadRequest, ReadReply_of_readReply conn hmu _ _ _ h]
    rcases hv with hv | ⟨s, hv⟩ | ⟨n, hv⟩ | ⟨m, hv⟩ <;> subst hv <;> rfl

/-- C8, at the top-level integer frame `:5\r\n`. -/
theorem C8_request_format_errors_witness :
    ReadRequest id (NewConn (lit ":5\r\n") []) =
      Outcome.ret (Except.error (GoError.errorString (lit "bad request"))) (NewConn [] []) :=
  (C8_request_format_errors id (NewConn (lit ":5\r\n") []) rfl (Value.int64 5) []).2.2
    (by rfl) (Or.inr (Or.inr (Or.inl ⟨5, rfl⟩)))

/-- C9, the reply that the code writes.  With no handler registered, on a stream of
two `PING` requests, `Handle` sends the single frame `-unsurport method:ping\r\n`,
invokes no handler, closes the connection and returns, the second request unread.
The text of the frame is not the `-unsupported method:ping\r\n` of the claim. -/
theorem C9_unsupported_method_reply :
    Handle id NewServer 1 (lit "*1\r\n$4\r\nPING\r\n*1\r\n$4\r\nPING\r\n") [] =
        some { conn := { input := lit "*1\r\n$4\r\nPING\r\n", bw := [],
                         output := lit "-unsurport method:ping\r\n",
                         mu := false, closed := true },
               calls := [], ending := HandleEnd.returned } ∧
      lit "-unsurport method:ping\r\n" ≠ lit "-unsupported method:ping\r\n" :=
  ⟨by rfl, by decide⟩

/-- C10. Duplicate registration.  For every server state whose lock is free: when the
method name `m` already has a handler, `AddHandler(m, f)` returns a non-nil error and
leaves the server, hence the whole handler map, as it was; when `m` has no handler,
`AddHandler(m, f)` returns nil and the new map is the old one with the single added
binding of `m` to `f`. -/
theorem C10_duplicate_registration (s : Server) (hmu : s.mu = false) (m : Bytes)
    (f : HandlerFunc) :
    (∀ g, s.lookup m = some g → ∃ e, AddHandler m f s = Outcome.ret (some e) s) ∧
      (s.lookup m = none →
        AddHandler m f s =
          Outcome.ret none
            { s with handlers := some (fun k => if k = m then some f else s.lookup k) }) := by
  obtain ⟨mu, handlers⟩ := s
  simp only at hmu
  subst hmu
  refine ⟨?_, ?_⟩
  · intro g hg
    cases handlers with
    | none => simp [Server.lookup] at hg
    | some hm =>
      simp only [Server.lookup] at hg
      exact ⟨GoError.errorString (lit "resp server: handler already set for method: " ++ m),
        by simp [AddHandler, Server.lookup, hg]⟩
  · intro hno
    cases handlers with
    | none =>
      simp only [AddHandler, Server.lookup, Bool.false_eq_true, if_false, Option.getD_some]
      rfl
    | some hm =>
      simp only [Server.lookup] at hno
      simp only [AddHandler, Server.lookup, hno, Bool.false_eq_true, if_false, Option.getD_some]
      rfl

/-- C10, on the new server: `ping` is registered, and a second registration of `ping`
fails and changes nothing. -/
theorem C10_duplicate_registration_witness :
    AddHandler (lit "ping") (fun c _ => Outcome.ret () c) NewServer =
        Outcome.ret none
          { NewServer with
            handlers := some (fun k =>
              if k = lit "ping" then some (fun c _ => Outcome.ret () c)
              else NewServer.lookup k) } ∧
      ∃ e, AddHandler (lit "ping") (fun c _ => Outcome.ret () c)
          { mu := false, handlers := some (fun k =>
              if k = lit "ping" then some (fun c _ => Outcome.ret () c) else none) } =
        Outcome.ret (some e)
          { mu := false, handlers := some (fun k =>
              if k = lit "ping" then some (fun c _ => Outcome.ret () c) else none) } :=
  ⟨(C10_duplicate_registration NewServer rfl (lit "ping") (fun c _ => Outcome.ret () c)).2 rfl,
    (C10_duplicate_registration
      { mu := false, handlers := some (fun k =>
          if k = lit "ping" then some (fun c _ => Outcome.ret () c) else none) }
      rfl (lit "ping") (fun c _ => Outcome.ret () c)).1 (fun c _ => Outcome.ret () c)
      (by simp [Server.lookup])⟩

/-- C11. Bulk coercion of the named payload types.  On a connection whose lock is free,
`WriteBulk` returns nil and sends exactly `$`, `L`, CR LF, `B`, CR LF, where `B` is the
payload itself for a string and for a byte slice, the base-10 decimal text for an
`int` and for an `int64`, the single byte `1` for `true` and `0` for `false`, and `L`
is the decimal text of the number of bytes of `B`. -/
theorem C11_bulk_coercion (w : Conn) (hw : w.mu = false) :
    (∀ s : Bytes, WriteBulk (Payload.string s) w = Outcome.ret none (w.sent (bulkFrame s))) ∧
      (∀ b : Bytes, WriteBulk (Payload.bytes b) w = Outcome.ret none (w.sent (bulkFrame b))) ∧
      (∀ n : Int, WriteBulk (Payload.int n) w =
        Outcome.ret none (w.sent (bulkFrame (decimalText n)))) ∧
      (∀ n : Int, WriteBulk (Payload.int64 n) w =
        Outcome.ret none (w.sent (bulkFrame (decimalText n)))) ∧
      WriteBulk (Payload.bool true) w = Outcome.ret none (w.sent (bulkFrame (lit "1"))) ∧
      WriteBulk (Payload.bool false) w = Outcome.ret none (w.sent (bulkFrame (lit "0"))) ∧
      (∀ B : Bytes, bulkFrame B =
        lit "$" ++ decimalText (B.length : Int) ++ lit "\r\n" ++ B ++ lit "\r\n") := by
  refine ⟨?_, ?_, ?_, ?_, ?_, ?_, ?_⟩
  · intro s
    exact WriteBulk_writeString s _ w hw (fun c => rfl)
  · intro b
    exact WriteBulk_writeString b _ w hw (fun c => rfl)
  · intro n
    rw [← FormatInt_eq_decimalText]
    exact WriteBulk_writeString _ _ w hw (fun c => rfl)
  · intro n
    rw [← FormatInt_eq_decimalText]
    exact WriteBulk_writeString _ _ w hw (fun c => rfl)
  · exact WriteBulk_writeString _ _ w hw (fun c => rfl)
  · exact WriteBulk_writeString _ _ w hw (fun c => rfl)
  · intro B
    simp [bulkFrame, Itoa, FormatInt_eq_decimalText]

/-- C11, on a new connection: the `int` -42 is sent as the bulk frame of its decimal
text `-42`, and `true` as `$1\r\n1\r\n`. -/
theorem C11_bulk_coercion_witness :
    WriteBulk (Payload.int (-42)) (NewConn [] []) =
        Outcome.ret none ((NewConn [] []).sent (bulkFrame (decimalText (-42)))) ∧
      decimalText (-42) = lit "-42" ∧
      WriteBulk (Payload.bool true) (NewConn [] []) =
        Outcome.ret none { NewConn [] [] with output := lit "$1\r\n1\r\n" } :=
  ⟨(C11_bulk_coercion (NewConn [] []) rfl).2.2.1 (-42),
    (FormatInt_eq_decimalText (-42)).symm.trans (by decide),
    ((C11_bulk_coercion (NewConn [] []) rfl).2.2.2.2.1).trans (by rfl)⟩

/-- C12, what the code sends for a payload of another type.  `WriteBulk(int32(5))`, a
payload that `fmt.Fprint` prints as `5`, takes the default case: `writeBytes` sends
`$1\r\n5` with no CR LF after the payload (on a new connection, for every printed
text `p`, the bytes sent are `$`, the length, CR LF and `p`, and nothing more).  That
is not the bulk frame `$1\r\n5\r\n`, and `readReply` on the bytes sent returns the
error `io.EOF` and no string. -/
theorem C12_default_case_frame :
    (∀ p input output : Bytes, WriteBulk (Payload.other p) (NewConn input output) =
        Outcome.ret none
          ((NewConn input output).sent (lit "$" ++ Itoa (p.length : Int) ++ lit "\r\n" ++ p))) ∧
      WriteBulk (Payload.other (lit "5")) (NewConn [] []) =
        Outcome.ret none { NewConn [] [] with output := lit "$1\r\n5" } ∧
      lit "$1\r\n5" ≠ bulkFrame (lit "5") ∧
      bulkFrame (lit "5") = lit "$1\r\n5\r\n" ∧
      readReply (lit "$1\r\n5") = (Reply.ret Value.null (some GoError.EOF), []) ∧
      readReply (bulkFrame (lit "5")) = (Reply.ret (Value.str (lit "5")) none, []) := by
  refine ⟨?_, by rfl, by decide, by decide, by rfl, by rfl⟩
  intro p input output
  simp [WriteBulk, withLock, NewConn, writeBulk, writeBytes, writeLen, Conn.bwWrite, Conn.Flush,
    Conn.sent]

/-- C13, what the code does for a nil payload.  `writeBulk` calls the public `WriteNil`,
which locks `c.mu` again while `WriteBulk` holds it: the call blocks for ever in every
state of the connection and sends nothing.  On a new connection `WriteBulk(nil)`
blocks with the lock held and no byte written; `WriteReply` on the list of the string
`a` and nil blocks at the nil element, with `*2\r\n$1\r\na\r\n` still in the writer and
nothing on the wire.  The public `WriteNil` alone returns and sends `$-1\r\n`. -/
theorem C13_nil_payload_blocks :
    (∀ c : Conn, ∃ c1 : Conn, WriteBulk Payload.null c = Outcome.blocked c1) ∧
      WriteBulk Payload.null (NewConn [] []) =
        Outcome.blocked { NewConn [] [] with mu := true } ∧
      WriteReply [Payload.string (lit "a"), Payload.null] (NewConn [] []) =
        Outcome.blocked { NewConn [] [] with mu := true, bw := lit "*2\r\n$1\r\na\r\n" } ∧
      WriteNil (NewConn [] []) =
        Outcome.ret none { NewConn [] [] with output := lit "$-1\r\n" } := by
  refine ⟨?_, by rfl, by rfl, by rfl⟩
  intro c
  by_cases h : c.mu = true
  · exact ⟨c, by simp [WriteBulk, withLock, h]⟩
  · exact ⟨{ c with mu := true }, by simp [WriteBulk, withLock, h, writeBulk, WriteNil]⟩

/-- C14. Unknown type tag.  For every input whose header line (read with no error and
fitting the buffer) has a first byte that is none of `+`, `-`, `:`, `$`, `*`,
`readReply` returns the error `bad protocol` and the nil value, whatever the rest of
the line and of the stream; in particular for every line `tag`, `body`, CR LF of at
most 4096 bytes.  And whenever `ReadLine` reports that the header line did not fit its
buffer (`isPrefix`), `readReply` returns the error `bad protocol` and the nil value. -/
theorem C14_unknown_tag (s : Bytes) (tag : Nat) (body : Bytes)
    (h43 : tag ≠ 43) (h45 : tag ≠ 45) (h58 : tag ≠ 58) (h36 : tag ≠ 36) (h42 : tag ≠ 42) :
    ((ReadLine s).err = none → (ReadLine s).isPrefix = false →
        (ReadLine s).line = tag :: body →
        readReply s =
          (Reply.ret Value.null (some (GoError.errorString (lit "bad protocol"))),
            (ReadLine s).rest)) ∧
      (∀ rest : Bytes, tag ≠ LF → LF ∉ body → body.length ≤ 4093 →
        readReply (tag :: body ++ CR :: LF :: rest) =
          (Reply.ret Value.null (some (GoError.errorString (lit "bad protocol"))), rest)) ∧
      ((ReadLine s).isPrefix = true →
        readReply s =
          (Reply.ret Value.null (some (GoError.errorString (lit "bad protocol"))),
            (ReadLine s).rest)) := by
  refine ⟨?_, ?_, (readReply_bad_header s).1⟩
  · intro herr hp hline
    exact (readReply_bad_header s).2 tag body herr hp hline h43 h45 h58 h36 h42
  · intro rest hLF hbody hlen
    have hl := ReadLine_tagged tag body rest hLF hbody hlen
    have h := (readReply_bad_header (tag :: body ++ CR :: LF :: rest)).2 tag body
      (by rw [hl]) (by rw [hl]) (by rw [hl]) h43 h45 h58 h36 h42
    rw [h, hl]

/-- C14, at the stream `?abc\r\n$3\r\n`, whose header line starts with `?`. -/
theorem C14_unknown_tag_witness :
    readReply (lit "?abc\r\n$3\r\n") =
      (Reply.ret Value.null (some (GoError.errorString (lit "bad protocol"))), lit "$3\r\n") :=
  (C14_unknown_tag [] 63 (lit "abc") (by decide) (by decide) (by decide) (by decide)
    (by decide)).2.1 (lit "$3\r\n") (by decide) (by decide) (by decide)

/-- C15, what the code does.  For the header `$-1` `readReply` returns nil with a nil
error and leaves every byte after the header line unread.  For the header `$-2` (and
`$-100`, and the least 64-bit length) it returns nothing: the length is not -1, so
`make([]byte, n)` is called with a negative length and panics. -/
theorem C15_bulk_negative_length :
    (∀ rest : Bytes, readReply (lit "$-1\r\n" ++ rest) = (Reply.ret Value.null none, rest)) ∧
      readReply (lit "$-2\r\n") = (Reply.panic PanicKind.makesliceLen, []) ∧
      (∀ rest : Bytes, readReply (lit "$-100\r\n" ++ rest) =
        (Reply.panic PanicKind.makesliceLen, rest)) ∧
      readReply (lit "$-9223372036854775808\r\n") = (Reply.panic PanicKind.makesliceLen, []) ∧
      ReadReply (NewConn (lit "$-2\r\n") []) =
        Outcome.panic PanicKind.makesliceLen (NewConn [] []) := by
  refine ⟨readReply_null_bulk, by rfl, ?_, by rfl, by rfl⟩
  intro rest
  have hh : lit "$-100\r\n" = 36 :: FormatInt (-100) ++ CR :: LF :: [] := by decide
  have e : lit "$-100\r\n" ++ rest = 36 :: FormatInt (-100) ++ CR :: LF :: rest := by
    rw [hh]; simp
  rw [e]
  exact readReply_of_aux _ _ (readReplyAux_bulk_negative _ (-100) rest (by decide) (by decide))

/-- C16, as stated, fails for a count above the allocation limit.  With the count
`2 ^ 44 + 1` and a stream that ends after the header, the decode of element 1 returns
the error `io.EOF`, but `readReply` on the array does not return it: the up-front
`make([]interface{}, 0, n)` panics. -/
theorem C16_huge_count_counterexample :
    readReply [] = (Reply.ret Value.null (some GoError.EOF), []) ∧
      readReply (lit "*17592186044417\r\n") = (Reply.panic PanicKind.makesliceCap, []) ∧
      17592186044417 * 16 > maxAlloc :=
  ⟨by rfl, by rfl, by decide⟩

/-- C16, amended.  Array decode error propagation: for every count `n` from 1 to
`2 ^ 44` (so that the `n` interface values fit the allocation limit) and every input
`*n\r\n` followed by bytes from which the elements `vs`, fewer than `n`, are decoded
with no error and the decode of the next element returns the error `e`, `readReply`
on the array returns the error `e` and the nil value, never a partial array.  That
includes the stream that ends after the elements `vs`: the error is then `io.EOF`. -/
theorem C16_array_error_propagation (n : Nat) (hn : n * 16 ≤ maxAlloc) (rest : Bytes)
    (vs : List Value) (hi : vs.length < n) (sk : Bytes) (hok : decodesTo rest vs sk) :
    (∀ (v : Value) (e : GoError) (s1 : Bytes), readReply sk = (Reply.ret v (some e), s1) →
        readReply (lit "*" ++ Itoa (n : Int) ++ lit "\r\n" ++ rest) =
          (Reply.ret Value.null (some e), s1)) ∧
      (sk = [] →
        readReply (lit "*" ++ Itoa (n : Int) ++ lit "\r\n" ++ rest) =
          (Reply.ret Value.null (some GoError.EOF), [])) := by
  refine ⟨?_, ?_⟩
  · intro v e s1 herr
    exact readReply_array_error n hn rest vs hi sk s1 v e hok herr
  · intro hsk
    subst hsk
    exact readReply_array_error n hn rest vs hi [] [] Value.null GoError.EOF hok (by rfl)

/-- C16 amended, at `*2\r\n` followed by the bulk string `foo` and the integer frame
`:x\r\n`, whose decode fails. -/
theorem C16_array_error_propagation_witness :
    readReply (lit "*" ++ Itoa ((2 : Nat) : Int) ++ lit "\r\n" ++ lit "$3\r\nfoo\r\n:x\r\n") =
      (Reply.ret Value.null (some (GoError.numError (lit "x") NumErrKind.errSyn)), []) :=
  (C16_array_error_propagation 2 (by decide) (lit "$3\r\nfoo\r\n:x\r\n")
    [Value.str (lit "foo")] (by decide) (lit ":x\r\n") ⟨lit ":x\r\n", by rfl, rfl⟩).1
    (Value.int64 0) (GoError.numError (lit "x") NumErrKind.errSyn) [] (by rfl)

/-- C17, what the code returns for an error frame.  On the input `-ERR\r\n` `readReply`
returns a nil decode error together with the value `errors.New("ERR")`, of type
`error`: not an `int64`, a string, nil or a `[]interface{}`, the types that the
comment on `readReply` lists.  The other four cases return values of the listed
types. -/
theorem C17_error_value_returned :
    readReply (lit "-ERR\r\n") = (Reply.ret (Value.error (lit "ERR")) none, []) ∧
      Value.documented (Value.error (lit "ERR")) = false ∧
      ReadReply (NewConn (lit "-ERR\r\n") []) =
        Outcome.ret (Value.error (lit "ERR"), none) (NewConn [] []) ∧
      (∀ v : Value, Value.documented v = false ↔ ∃ msg, v = Value.error msg) := by
  refine ⟨by rfl, by rfl, by rfl, ?_⟩
  intro v
  cases v <;> simp [Value.documented]

/-- C18, what the code does on an empty header line.  For every stream that begins
with CR LF or with a lone LF, `ReadLine` gives an empty line with no error and
`line[0]` panics (index out of range): `readReply` returns neither a value nor an
error.  Through `ReadReply` the panic reaches the caller, and in `Handle` it ends the
run of the connection with no request served. -/
theorem C18_empty_header_line :
    (∀ rest : Bytes,
        readReply (lit "\r\n" ++ rest) = (Reply.panic PanicKind.indexOutOfRange, rest)) ∧
      (∀ rest : Bytes,
        readReply (lit "\n" ++ rest) = (Reply.panic PanicKind.indexOutOfRange, rest)) ∧
      ReadReply (NewConn (lit "\r\n") []) =
        Outcome.panic PanicKind.indexOutOfRange (NewConn [] []) ∧
      Handle id NewServer 1 (lit "\r\n") [] =
        some { conn := { NewConn [] [] with closed := true }, calls := [],
               ending := HandleEnd.panicked PanicKind.indexOutOfRange } :=
  ⟨fun rest => (readReply_empty_line rest).1, fun rest => (readReply_empty_line rest).2,
    by rfl, by rfl⟩

/-- C19, as stated, fails for a long text.  For the text of 4094 bytes `a`, free of CR
and LF, the bulk frame is decoded to the text, but the status frame is a line that
does not fit the buffer of the reader: `readReply` returns the error `bad protocol`
and nil, so the two frames do not give equal values. -/
theorem C19_long_text_counterexample :
    CR ∉ List.replicate 4094 97 ∧ LF ∉ List.replicate 4094 97 ∧
      readReply (lit "+" ++ List.replicate 4094 97 ++ lit "\r\n") =
        (Reply.ret Value.null (some (GoError.errorString (lit "bad protocol"))), [CR, LF]) ∧
      readReply (bulkFrame (List.replicate 4094 97)) =
        (Reply.ret (Value.str (List.replicate 4094 97)) none, []) :=
  ⟨fun h => absurd (List.eq_of_mem_replicate h) (by decide),
    fun h => absurd (List.eq_of_mem_replicate h) (by decide),
    readReply_status_long (List.replicate 4094 97)
      (fun h => absurd (List.eq_of_mem_replicate h) (by decide)) (List.length_replicate _ _),
    readReply_bulkFrame (List.replicate 4094 97)
      (le_of_eq_of_le (List.length_replicate _ _) (by decide))⟩

/-- C19, amended.  The decoded value does not retain its wire type: for every text `t`
of at most 4093 bytes without CR or LF, `readReply` on the status frame `+`, `t`,
CR LF and on the bulk frame `$<len>\r\n`, `t`, CR LF returns the same string with a
nil error, although the frames differ; and on the null bulk frame `$-1\r\n` and on the
null array frame `*-1\r\n` it returns the same nil.  So the decoder is not injective
on well-formed frames. -/
theorem C19_wire_type_not_retained (t : Bytes) (_hCR : CR ∉ t) (hLF : LF ∉ t)
    (hlen : t.length ≤ 4093) :
    readReply (lit "+" ++ t ++ lit "\r\n") = (Reply.ret (Value.str t) none, []) ∧
      readReply (bulkFrame t) = (Reply.ret (Value.str t) none, []) ∧
      lit "+" ++ t ++ lit "\r\n" ≠ bulkFrame t ∧
      readReply (lit "$-1\r\n") = (Reply.ret Value.null none, []) ∧
      readReply (lit "*-1\r\n") = (Reply.ret Value.null none, []) ∧
      lit "$-1\r\n" ≠ lit "*-1\r\n" ∧
      ¬ Function.Injective readReply := by
  have h1 : readReply (lit "+" ++ t ++ lit "\r\n") = (Reply.ret (Value.str t) none, []) := by
    have h := readReply_status t [] hLF hlen
    rw [List.append_nil] at h
    exact h
  have h2 : readReply (bulkFrame t) = (Reply.ret (Value.str t) none, []) :=
    readReply_bulkFrame t (by simp only [maxAlloc]; omega)
  have h3 : lit "+" ++ t ++ lit "\r\n" ≠ bulkFrame t := by
    intro e
    have e1 := congrArg List.head? e
    rw [bulkFrame_head] at e1
    have hp : lit "+" = [43] := by decide
    simp [hp] at e1
  refine ⟨h1, h2, h3, by rfl, by rfl, by decide, ?_⟩
  intro hinj
  exact h3 (hinj (h1.trans h2.symm))

/-- C19 amended, at the text `OK`. -/
theorem C19_wire_type_not_retained_witness :
    readReply (lit "+" ++ lit "OK" ++ lit "\r\n") = (Reply.ret (Value.str (lit "OK")) none, []) ∧
      readReply (bulkFrame (lit "OK")) = (Reply.ret (Value.str (lit "OK")) none, []) :=
  ⟨(C19_wire_type_not_retained (lit "OK") (by decide) (by decide) (by decide)).1,
    (C19_wire_type_not_retained (lit "OK") (by decide) (by decide) (by decide)).2.1⟩

/-- C20. Method names are normalised once, at decode time.  `strings.ToLower` is
idempotent on ASCII strings; its Unicode branch is library code, assumed to return
strings that `ToLower` leaves unchanged.  Then, for every server `s`:
every request returned by `ReadRequest` has a `Method` unchanged by lowercasing;
`Handle` invokes, in each iteration, exactly the handler found under that string, so
every invocation of a run is for a lowercased method that has a handler;
a handler added by `AddHandler` under a name `m` that differs from its lowercase is
invoked in no run, on any input: every invocation goes through another name, bound as
before the registration;
and a request spelling the method `PING`, `Ping` or `ping` is decoded to the method
`ping` and handed to the handler registered as `ping`. -/
theorem C20_method_normalised (U : Bytes → Bytes)
    (hU : ∀ t : Bytes, t.all (fun c => decide (c < 128)) = false → ToLower U (U t) = U t)
    (s : Server) :
    (∀ (conn c1 : Conn) (req : Request),
        ReadRequest U conn = Outcome.ret (Except.ok req) c1 →
        ToLower U req.Method = req.Method) ∧
      (∀ (fuel : Nat) (conn c1 : Conn) (calls : List Request) (req : Request) (h : HandlerFunc),
        ReadRequest U conn = Outcome.ret (Except.ok req) c1 → s.lookup req.Method = some h →
        (∀ u c2, h c1 req = Outcome.ret u c2 →
          handleLoop U s (fuel + 1) conn calls = handleLoop U s fuel c2 (calls ++ [req])) ∧
        (∀ k c2, h c1 req = Outcome.panic k c2 →
          handleLoop U s (fuel + 1) conn calls =
            some { conn := c2, calls := calls ++ [req], ending := HandleEnd.panicked k }) ∧
        (∀ c2, h c1 req = Outcome.blocked c2 →
          handleLoop U s (fuel + 1) conn calls =
            some { conn := c2, calls := calls ++ [req], ending := HandleEnd.blocked })) ∧
      (∀ (fuel : Nat) (input output : Bytes) (r : HandleResult),
        Handle U s fuel input output = some r →
        ∀ q ∈ r.calls, ToLower U q.Method = q.Method ∧ (s.lookup q.Method).isSome = true) ∧
      (∀ (m : Bytes) (f : HandlerFunc) (s0 : Server), ToLower U m ≠ m →
        AddHandler m f s0 = Outcome.ret none s →
        ∀ (fuel : Nat) (input output : Bytes) (r : HandleResult),
          Handle U s fuel input output = some r →
          ∀ q ∈ r.calls, q.Method ≠ m ∧ s.lookup q.Method = s0.lookup q.Method) ∧
      (∀ (h : HandlerFunc), s.lookup (lit "ping") = some h →
        ∀ frame ∈ [lit "*1\r\n$4\r\nPING\r\n", lit "*1\r\n$4\r\nPing\r\n",
            lit "*1\r\n$4\r\nping\r\n"],
          ∀ (fuel : Nat) (output : Bytes) (calls : List Request) (u : Unit) (c2 : Conn),
            h (NewConn [] output) { Method := lit "ping", Args := [] } = Outcome.ret u c2 →
            handleLoop U s (fuel + 1) (NewConn frame output) calls =
              handleLoop U s fuel c2 (calls ++ [{ Method := lit "ping", Args := [] }])) := by
  have ha : ∀ (conn c1 : Conn) (req : Request),
      ReadRequest U conn = Outcome.ret (Except.ok req) c1 →
      ToLower U req.Method = req.Method := by
    intro conn c1 req h
    obtain ⟨m, hm⟩ := ReadRequest_method U conn c1 req h
    rw [hm]
    exact ToLower_idem U hU m
  have hb : ∀ (fuel : Nat) (input output : Bytes) (r : HandleResult),
      Handle U s fuel input output = some r →
      ∀ q ∈ r.calls, ToLower U q.Method = q.Method ∧ (s.lookup q.Method).isSome = true := by
    intro fuel input output r h
    exact Handle_calls U s _
      (fun conn c1 req hd hreq hh => ⟨ha conn c1 req hreq, by rw [hh]; rfl⟩)
      fuel input output r h
  refine ⟨ha, ?_, hb, ?_, ?_⟩
  · intro fuel conn c1 calls req h hreq hh
    exact handleLoop_dispatch U s fuel conn c1 calls req h hreq hh
  · intro m f s0 hm hadd fuel input output r h q hq
    obtain ⟨hq1, _⟩ := hb fuel input output r h q hq
    have hne : q.Method ≠ m := by
      intro e
      rw [e] at hq1
      exact hm hq1
    refine ⟨hne, ?_⟩
    rw [AddHandler_lookup m f s0 s hadd q.Method]
    simp [hne]
  · intro h hh frame hf fuel output calls u c2 hc
    have hreq := ReadRequest_ping U output frame hf
    exact (handleLoop_dispatch U s fuel _ _ calls _ h hreq hh).1 u c2 hc

/-- C20, on the sample server, whose only handler is registered as `ping`: the request
`PING` is answered by that handler with `+PONG\r\n`, and the one invocation of the run
is for the lowercased method `ping`, which has a handler. -/
theorem C20_method_normalised_witness :
    Handle id pingServer 2 (lit "*1\r\n$4\r\nPING\r\n") [] =
        some { conn := { NewConn [] [] with output := lit "+PONG\r\n", closed := true },
               calls := [{ Method := lit "ping", Args := [] }],
               ending := HandleEnd.returned } ∧
      ∀ q ∈ [({ Method := lit "ping", Args := [] } : Request)],
        ToLower id q.Method = q.Method ∧ (pingServer.lookup q.Method).isSome = true :=
  ⟨by rfl,
    (C20_method_normalised id (fun t ht => by simp [ToLower, ht]) pingServer).2.2.1 2
      (lit "*1\r\n$4\r\nPING\r\n") []
      { conn := { NewConn [] [] with output := lit "+PONG\r\n", closed := true },
        calls := [{ Method := lit "ping", Args := [] }],
        ending := HandleEnd.returned } (by rfl)⟩

end Resp
